import Mathlib

/-!
Verification of the M4A writer of the loukai repository
(`src/utils/m4aWriter.js`, class `M4AWriter`) against its natural-language
specification.

Byte buffers (`Buffer`) are modelled as `List Nat` (one `Nat` per byte);
4-character atom type tags are modelled as the list of their four bytes
(`buffer.toString('utf8', pos+4, pos+8)` compared against an ASCII literal
is equivalent to comparing the four raw bytes, since WHATWG UTF-8 decoding
never maps other byte sequences to a 4-character ASCII string).
JavaScript numbers holding byte offsets and sizes are modelled as `Nat`,
signed deltas as `Int`; every comparison of the form `a < b - c` in the
source is translated to its integer-equivalent additive form (`a + c < b`)
so that `Nat` truncation cannot diverge from JavaScript semantics.
`Buffer.readUInt32BE` / `writeUInt32BE` / `readBigUInt64BE` /
`writeBigUInt64BE` throw `ERR_OUT_OF_RANGE` on out-of-bounds offsets or
out-of-range values; the loops of `updateChunkOffsets` run inside a
`try/catch`, which is modelled by explicit bounds checks that abort the
loop (returning an `ok = false` flag to the caller, which then advances
the scan position by 8 exactly as the `catch` block does).
`Number(buffer.readBigUInt64BE(...))` is modelled as the exact integer;
this is faithful for values below 2^53, and every theorem that touches
`co64` entries stays inside that range via its well-formedness hypotheses.
Loops are modelled by fuel-indexed structural recursion; the top-level
entry points supply a fuel that is proved sufficient (claim C10).
-/

namespace M4A

/-- The four bytes of a 32-bit big-endian unsigned integer
    (`Buffer.writeUInt32BE`); values are reduced mod 2^32 byte-wise. -/
def u32BE (n : Nat) : List Nat :=
  [n / 16777216 % 256, n / 65536 % 256, n / 256 % 256, n % 256]

/-- The eight bytes of a 64-bit big-endian unsigned integer
    (`Buffer.writeBigUInt64BE`). -/
def u64BE (n : Nat) : List Nat :=
  [n / 72057594037927936 % 256, n / 281474976710656 % 256,
   n / 1099511627776 % 256, n / 4294967296 % 256,
   n / 16777216 % 256, n / 65536 % 256, n / 256 % 256, n % 256]

/-- `buffer.readUInt32BE(pos)` (bounds are checked separately at each
    call site that can throw). -/
def readU32 (b : List Nat) (p : Nat) : Nat :=
  b.getD p 0 * 16777216 + b.getD (p+1) 0 * 65536 + b.getD (p+2) 0 * 256 +
    b.getD (p+3) 0

/-- `Number(buffer.readBigUInt64BE(pos))`, modelled exactly. -/
def readU64 (b : List Nat) (p : Nat) : Nat :=
  b.getD p 0 * 72057594037927936 + b.getD (p+1) 0 * 281474976710656 +
    b.getD (p+2) 0 * 1099511627776 + b.getD (p+3) 0 * 4294967296 +
    b.getD (p+4) 0 * 16777216 + b.getD (p+5) 0 * 65536 +
    b.getD (p+6) 0 * 256 + b.getD (p+7) 0

/-- The 4-byte type tag at position `p` (`buffer.toString('utf8', p, p+4)`). -/
def tagAt (b : List Nat) (p : Nat) : List Nat :=
  [b.getD p 0, b.getD (p+1) 0, b.getD (p+2) 0, b.getD (p+3) 0]

/-- In-place overwrite of `v.length` bytes at position `p`
    (`Buffer.writeUInt32BE` / `writeBigUInt64BE`, whose offset bounds are
    checked at each call site). -/
def writeBytes (b : List Nat) (p : Nat) (v : List Nat) : List Nat :=
  b.take p ++ v ++ b.drop (p + v.length)

/-- `buffer.slice(s, e)` (both indices non-negative at every call site). -/
def jsSlice (b : List Nat) (s e : Nat) : List Nat := (b.take e).drop s

def tagMoov : List Nat := [0x6d, 0x6f, 0x6f, 0x76]
def tagUdta : List Nat := [0x75, 0x64, 0x74, 0x61]
def tagMeta : List Nat := [0x6d, 0x65, 0x74, 0x61]
def tagIlst : List Nat := [0x69, 0x6c, 0x73, 0x74]
def tagDash : List Nat := [0x2d, 0x2d, 0x2d, 0x2d]
def tagMean : List Nat := [0x6d, 0x65, 0x61, 0x6e]
def tagName : List Nat := [0x6e, 0x61, 0x6d, 0x65]
def tagData : List Nat := [0x64, 0x61, 0x74, 0x61]
def tagHdlr : List Nat := [0x68, 0x64, 0x6c, 0x72]
def tagStco : List Nat := [0x73, 0x74, 0x63, 0x6f]
def tagCo64 : List Nat := [0x63, 0x6f, 0x36, 0x34]
def tagTrak : List Nat := [0x74, 0x72, 0x61, 0x6b]
def tagMdia : List Nat := [0x6d, 0x64, 0x69, 0x61]
def tagMinf : List Nat := [0x6d, 0x69, 0x6e, 0x66]
def tagStbl : List Nat := [0x73, 0x74, 0x62, 0x6c]
def tagFree : List Nat := [0x66, 0x72, 0x65, 0x65]

/-- One entry of the list returned by `parseMP4Atoms`. -/
structure AtomRec where
  type : List Nat
  offset : Nat
  size : Nat
  dataOffset : Nat
deriving DecidableEq, Repr

/-- The loop body of `M4AWriter.parseMP4Atoms` (lines 191-216), with
    explicit fuel.  The JS condition `pos < endOffset - 8` is the integer
    condition `pos + 8 < endOffset`; the JS condition
    `size > buffer.length - pos` is `pos + size > buffer.length`.
    Out-of-buffer reads are modelled by `getD`-zero padding; this agrees
    with Node (whose `readUInt32BE` would throw) on every call site,
    because each caller passes an `endOffset` that never exceeds
    `buffer.length`, so every read here is in bounds. -/
def parseLoopF : Nat → List Nat → Int → Nat → List AtomRec
  | 0, _, _, _ => []
  | fuel+1, b, endO, pos =>
    if (pos : Int) + 8 < endO then
      let size := readU32 b pos
      let ty := tagAt b (pos + 4)
      if size = 0 ∨ pos + size > b.length then
        []
      else
        ⟨ty, pos, size, pos + 8⟩ :: parseLoopF fuel b endO (pos + size)
    else []

/-- `const endOffset = maxLength ? offset + maxLength : buffer.length`.
    JavaScript truthiness: `maxLength = 0` (and `null`, modelled as `none`)
    falls back to `buffer.length`; any other value, including a negative
    one, is used as-is. -/
def endOffsetOf (b : List Nat) (offset : Nat) (maxLength : Option Int) : Int :=
  match maxLength with
  | none => (b.length : Int)
  | some m => if m = 0 then (b.length : Int) else (offset : Int) + m

/-- The scan of `parseMP4Atoms` from position `pos` with end bound `endO`,
    run with its canonical (sufficient, see claim C10) fuel. -/
def parseAtomsFrom (b : List Nat) (endO : Int) (pos : Nat) : List AtomRec :=
  parseLoopF (endO - (pos : Int)).toNat b endO pos

/-- `M4AWriter.parseMP4Atoms(buffer, offset = 0, maxLength = null)`. -/
def parseMP4Atoms (b : List Nat) (offset : Nat) (maxLength : Option Int) :
    List AtomRec :=
  parseAtomsFrom b (endOffsetOf b offset maxLength) offset

/-- Any two sufficiently large fuels give `parseLoopF` the same value: the
    loop terminates after at most `endO - pos` iterations because each
    iteration strictly advances `pos` by the declared size, which is ≥ 1. -/
theorem parseLoopF_congr : ∀ (f₁ : Nat) (f₂ : Nat) (b : List Nat)
    (endO : Int) (pos : Nat),
    (endO - (pos : Int)).toNat ≤ f₁ → (endO - (pos : Int)).toNat ≤ f₂ →
    parseLoopF f₁ b endO pos = parseLoopF f₂ b endO pos := by
  intro f₁
  induction f₁ with
  | zero =>
    intro f₂ b endO pos h₁ h₂
    have hle : endO ≤ (pos : Int) := by omega
    match f₂ with
    | 0 => rfl
    | f₂ + 1 =>
      simp only [parseLoopF]
      rw [if_neg (by omega)]
  | succ f ih =>
    intro f₂ b endO pos h₁ h₂
    match f₂ with
    | 0 =>
      have hle : endO ≤ (pos : Int) := by omega
      simp only [parseLoopF]
      rw [if_neg (by omega)]
    | f₂ + 1 =>
      simp only [parseLoopF]
      by_cases hc : (pos : Int) + 8 < endO
      · rw [if_pos hc, if_pos hc]
        by_cases hbad : readU32 b pos = 0 ∨ pos + readU32 b pos > b.length
        · rw [if_pos hbad, if_pos hbad]
        · rw [if_neg hbad, if_neg hbad]
          have hsz : 1 ≤ readU32 b pos := by omega
          have : (endO - ((pos + readU32 b pos : Nat) : Int)).toNat ≤ f := by
            push_cast
            omega
          have h2 : (endO - ((pos + readU32 b pos : Nat) : Int)).toNat ≤ f₂ := by
            push_cast
            omega
          rw [ih f₂ b endO (pos + readU32 b pos) this h2]
      · rw [if_neg hc, if_neg hc]

/-- `parseAtomsFrom` satisfies the recurrence of the source loop. -/
theorem parseAtomsFrom_eq (b : List Nat) (endO : Int) (pos : Nat) :
    parseAtomsFrom b endO pos =
      if (pos : Int) + 8 < endO then
        let size := readU32 b pos
        let ty := tagAt b (pos + 4)
        if size = 0 ∨ pos + size > b.length then []
        else ⟨ty, pos, size, pos + 8⟩ :: parseAtomsFrom b endO (pos + size)
      else [] := by
  unfold parseAtomsFrom
  by_cases hc : (pos : Int) + 8 < endO
  · have hpos : 1 ≤ (endO - (pos : Int)).toNat := by omega
    obtain ⟨k, hk⟩ : ∃ k, (endO - (pos : Int)).toNat = k + 1 :=
      ⟨(endO - (pos : Int)).toNat - 1, by omega⟩
    rw [hk]
    simp only [parseLoopF, if_pos hc]
    by_cases hbad : readU32 b pos = 0 ∨ pos + readU32 b pos > b.length
    · rw [if_pos hbad, if_pos hbad]
    · rw [if_neg hbad, if_neg hbad]
      have hsz : 1 ≤ readU32 b pos := by omega
      rw [parseLoopF_congr k ((endO - ((pos + readU32 b pos : Nat) : Int)).toNat)
        b endO (pos + readU32 b pos) (by push_cast; omega) (le_refl _)]
  · rw [if_neg hc]
    rcases Nat.eq_zero_or_pos (endO - (pos : Int)).toNat with h0 | hpos
    · rw [h0]; rfl
    · obtain ⟨k, hk⟩ : ∃ k, (endO - (pos : Int)).toNat = k + 1 :=
        ⟨(endO - (pos : Int)).toNat - 1, by omega⟩
      rw [hk]
      simp only [parseLoopF]
      rw [if_neg hc]

/-- `M4AWriter.createAtom(type, data)` (lines 221-227): 4-byte big-endian
    size `8 + data.length`, 4-byte type tag, then the payload. -/
def createAtom (ty : List Nat) (data : List Nat) : List Nat :=
  u32BE (8 + data.length) ++ ty ++ data

/-- UTF-8 encoding of one Unicode code point (the model of what
    `Buffer.from(s, 'utf8')` does per character). -/
def utf8Char (c : Nat) : List Nat :=
  if c < 0x80 then [c]
  else if c < 0x800 then [0xC0 + c / 64, 0x80 + c % 64]
  else if c < 0x10000 then
    [0xE0 + c / 4096, 0x80 + c / 64 % 64, 0x80 + c % 64]
  else
    [0xF0 + c / 262144, 0x80 + c / 4096 % 64, 0x80 + c / 64 % 64,
     0x80 + c % 64]

/-- `Buffer.from(s, 'utf8')` as a byte list. -/
def utf8Bytes (s : String) : List Nat :=
  s.data.flatMap (fun c => utf8Char c.toNat)

/-- `'com.stems'` as UTF-8 bytes. -/
def nsComStems : List Nat := utf8Bytes "com.stems"

/-- `'kaid'` as UTF-8 bytes. -/
def nameKaid : List Nat := utf8Bytes "kaid"

/-- `M4AWriter.createKaidAtom(kaidJson)` (lines 232-261): the freeform
    `----` atom with `mean` = 4 zero flag bytes + `'com.stems'`,
    `name` = 4 zero flag bytes + `'kaid'`, and `data` = type code 1,
    locale 0, then the raw JSON bytes.  `kaidJson` is passed here already
    UTF-8 encoded (`Buffer.from(kaidJson, 'utf8')`). -/
def createKaidAtom (jsonData : List Nat) : List Nat :=
  let meanAtom := createAtom tagMean (u32BE 0 ++ nsComStems)
  let nameAtom := createAtom tagName (u32BE 0 ++ nameKaid)
  let dataAtom := createAtom tagData (u32BE 1 ++ u32BE 0 ++ jsonData)
  createAtom tagDash (meanAtom ++ nameAtom ++ dataAtom)

/-- The literal `hdlr` payload of lines 276-302. -/
def hdlrData : List Nat :=
  [0x00, 0x00, 0x00, 0x00,
   0x00, 0x00, 0x00, 0x00,
   0x6d, 0x64, 0x69, 0x72,
   0x61, 0x70, 0x70, 0x6c,
   0x00, 0x00, 0x00, 0x00,
   0x00, 0x00, 0x00, 0x00,
   0x00]

/-- `M4AWriter.createMetaIlstKaidStructure(kaidAtomData)` (lines 266-306):
    4-byte version/flags, the fixed `hdlr` atom, then `ilst` wrapping the
    kaid atom. -/
def createMetaIlstKaidStructure (kaidAtomData : List Nat) : List Nat :=
  let ilst := createAtom tagIlst kaidAtomData
  let hdlr := createAtom tagHdlr hdlrData
  u32BE 0 ++ hdlr ++ ilst

/-- `M4AWriter.updateMetaWithKaid(fileBuffer, metaAtom, kaidAtomData)`
    (lines 311-373).  Note that the existing item to replace is located by
    `ilstChildren.find((a) => a.type === '----')`: the *first* freeform
    atom, whatever its `mean`/`name` identity. -/
def updateMetaWithKaid (fileBuffer : List Nat) (metaAtom : AtomRec)
    (kaidAtomData : List Nat) : List Nat :=
  let metaChildren := parseMP4Atoms fileBuffer (metaAtom.dataOffset + 4)
    (some ((metaAtom.size : Int) - 12))
  match metaChildren.find? (fun a => a.type = tagIlst) with
  | none =>
    let beforeIlst := jsSlice fileBuffer metaAtom.dataOffset
      (metaAtom.dataOffset + metaAtom.size - 8)
    let ilst := createAtom tagIlst kaidAtomData
    beforeIlst ++ ilst
  | some ilstAtom =>
    let ilstChildren := parseMP4Atoms fileBuffer ilstAtom.dataOffset
      (some ((ilstAtom.size : Int) - 8))
    match ilstChildren.find? (fun a => a.type = tagDash) with
    | some existingKaid =>
      let beforeKaid := jsSlice fileBuffer ilstAtom.dataOffset
        existingKaid.offset
      let afterKaid := jsSlice fileBuffer
        (existingKaid.offset + existingKaid.size)
        (ilstAtom.offset + ilstAtom.size)
      let newIlstData := beforeKaid ++ kaidAtomData ++ afterKaid
      let newIlst := createAtom tagIlst newIlstData
      let beforeIlst := jsSlice fileBuffer metaAtom.dataOffset ilstAtom.offset
      let afterIlst := jsSlice fileBuffer (ilstAtom.offset + ilstAtom.size)
        (metaAtom.offset + metaAtom.size)
      beforeIlst ++ newIlst ++ afterIlst
    | none =>
      let beforeNewKaid := jsSlice fileBuffer ilstAtom.dataOffset
        (ilstAtom.dataOffset + ilstAtom.size - 8)
      let newIlstData := beforeNewKaid ++ kaidAtomData
      let newIlst := createAtom tagIlst newIlstData
      let beforeIlst := jsSlice fileBuffer metaAtom.dataOffset ilstAtom.offset
      let afterIlst := jsSlice fileBuffer (ilstAtom.offset + ilstAtom.size)
        (metaAtom.offset + metaAtom.size)
      beforeIlst ++ newIlst ++ afterIlst

/-- The mutable state threaded through `updateChunkOffsets`'s scan: the
    buffer being edited in place and the three counters. -/
structure ScanSt where
  buf : List Nat
  stcoCount : Nat
  co64Count : Nat
  totalUpdated : Nat
deriving DecidableEq, Repr

/-- The `for` loop over `stco` entries (lines 403-416).  `rem` counts the
    remaining iterations, `offsetPos = pos + 16 + i*4` is the current entry
    position, `upd` accumulates `totalUpdated`.  The `Bool` is `false` when
    `readUInt32BE` or `writeUInt32BE` throws (out-of-bounds offset, or a
    new value outside `[0, 2^32 - 1]`), which the enclosing `try/catch`
    turns into an abort of the whole table. -/
def stcoEntryLoop (delta : Int) (threshold : Nat) :
    Nat → List Nat → Nat → Nat → List Nat × Nat × Bool
  | 0, buf, _, upd => (buf, upd, true)
  | rem+1, buf, offsetPos, upd =>
    if offsetPos + 4 > buf.length then (buf, upd, false)
    else
      let chunkOffset := readU32 buf offsetPos
      if chunkOffset ≥ threshold then
        let newOffset : Int := (chunkOffset : Int) + delta
        if newOffset < 0 ∨ newOffset > 4294967295 then (buf, upd, false)
        else
          stcoEntryLoop delta threshold rem
            (writeBytes buf offsetPos (u32BE newOffset.toNat))
            (offsetPos + 4) (upd + 1)
      else
        stcoEntryLoop delta threshold rem buf (offsetPos + 4) upd

/-- The `for` loop over `co64` entries (lines 424-438), 8 bytes per entry,
    value range `[0, 2^64 - 1]` enforced by `writeBigUInt64BE`. -/
def co64EntryLoop (delta : Int) (threshold : Nat) :
    Nat → List Nat → Nat → Nat → List Nat × Nat × Bool
  | 0, buf, _, upd => (buf, upd, true)
  | rem+1, buf, offsetPos, upd =>
    if offsetPos + 8 > buf.length then (buf, upd, false)
    else
      let chunkOffset := readU64 buf offsetPos
      if chunkOffset ≥ threshold then
        let newOffset : Int := (chunkOffset : Int) + delta
        if newOffset < 0 ∨ newOffset > 18446744073709551615 then
          (buf, upd, false)
        else
          co64EntryLoop delta threshold rem
            (writeBytes buf offsetPos (u64BE newOffset.toNat))
            (offsetPos + 8) (upd + 1)
      else
        co64EntryLoop delta threshold rem buf (offsetPos + 8) upd

/-- The recursive helper `searchAtoms(buffer, start, end)` of
    `M4AWriter.updateChunkOffsets` (lines 384-451), with explicit fuel.
    The JS loop condition `pos < end - 8 && pos < buffer.length - 8` is the
    integer condition `pos + 8 < end ∧ pos + 8 < buffer.length`; the size
    guard `size < 8 || size > end - pos` is `size < 8 ∨ pos + size > end`.
    A table whose entry loop throws is abandoned with `pos += 8`, exactly
    as the `catch` block does (note `stcoCount` / `co64Count` were already
    incremented before the failing read).  The same `pos += 8` is taken
    when reading the entry count at `pos + 12` would already be
    out of bounds. -/
def searchF (delta : Int) (threshold : Nat) :
    Nat → ScanSt → Nat → Nat → ScanSt
  | 0, st, _, _ => st
  | fuel+1, st, pos, endP =>
    if pos + 8 < endP ∧ pos + 8 < st.buf.length then
      let size := readU32 st.buf pos
      if size < 8 ∨ pos + size > endP then
        searchF delta threshold fuel st (pos + 8) endP
      else
        let atype := tagAt st.buf (pos + 4)
        if atype = tagStco then
          let st₁ : ScanSt :=
            { st with stcoCount := st.stcoCount + 1 }
          if pos + 16 > st.buf.length then
            searchF delta threshold fuel st₁ (pos + 8) endP
          else
            let entryCount := readU32 st.buf (pos + 12)
            let r := stcoEntryLoop delta threshold entryCount st.buf
              (pos + 16) 0
            let st₂ : ScanSt :=
              { buf := r.1, stcoCount := st₁.stcoCount,
                co64Count := st₁.co64Count,
                totalUpdated := st₁.totalUpdated + r.2.1 }
            searchF delta threshold fuel st₂
              (if r.2.2 then pos + size else pos + 8) endP
        else if atype = tagCo64 then
          let st₁ : ScanSt :=
            { st with co64Count := st.co64Count + 1 }
          if pos + 16 > st.buf.length then
            searchF delta threshold fuel st₁ (pos + 8) endP
          else
            let entryCount := readU32 st.buf (pos + 12)
            let r := co64EntryLoop delta threshold entryCount st.buf
              (pos + 16) 0
            let st₂ : ScanSt :=
              { buf := r.1, stcoCount := st₁.stcoCount,
                co64Count := st₁.co64Count,
                totalUpdated := st₁.totalUpdated + r.2.1 }
            searchF delta threshold fuel st₂
              (if r.2.2 then pos + size else pos + 8) endP
        else if atype = tagTrak ∨ atype = tagMdia ∨ atype = tagMinf ∨
            atype = tagStbl ∨ atype = tagMoov then
          let st' := searchF delta threshold fuel st (pos + 8) (pos + size)
          searchF delta threshold fuel st' (pos + size) endP
        else
          searchF delta threshold fuel st (pos + size) endP
    else st

/-- `searchAtoms` run with its canonical (sufficient, claim C10) fuel. -/
def searchAtoms (delta : Int) (threshold : Nat) (st : ScanSt)
    (pos endP : Nat) : ScanSt :=
  searchF delta threshold (endP - pos) st pos endP

/-- `M4AWriter.updateChunkOffsets(moovBuffer, sizeDelta, shiftThreshold)`
    (lines 379-457): scan the whole buffer, returning the edited buffer
    and the final counters. -/
def updateChunkOffsets (moovBuffer : List Nat) (sizeDelta : Int)
    (shiftThreshold : Nat) : ScanSt :=
  searchAtoms sizeDelta shiftThreshold ⟨moovBuffer, 0, 0, 0⟩ 0
    moovBuffer.length

/-- Lines 77-150 of `M4AWriter.injectKaidAtom`: build the new `moov` atom
    for `fileBuffer` and the (already UTF-8 encoded) kaid JSON, given the
    parsed record of the existing `moov` atom. -/
def buildNewMoov (fileBuffer : List Nat) (kaidJson : List Nat)
    (moovAtom : AtomRec) : List Nat :=
  let kaidAtomData := createKaidAtom kaidJson
  let moovChildren := parseMP4Atoms fileBuffer moovAtom.dataOffset
    (some ((moovAtom.size : Int) - 8))
  let newMoovData :=
    match moovChildren.find? (fun a => a.type = tagUdta) with
    | none =>
      let metaIlstKaid := createMetaIlstKaidStructure kaidAtomData
      let udtaData := createAtom tagUdta metaIlstKaid
      let moovDataEnd := moovAtom.dataOffset + moovAtom.size - 8
      let beforeUdta := jsSlice fileBuffer moovAtom.dataOffset moovDataEnd
      beforeUdta ++ udtaData
    | some udtaAtom =>
      let udtaChildren := parseMP4Atoms fileBuffer udtaAtom.dataOffset
        (some ((udtaAtom.size : Int) - 8))
      match udtaChildren.find? (fun a => a.type = tagMeta) with
      | none =>
        let metaIlstKaid := createMetaIlstKaidStructure kaidAtomData
        let beforeMeta := jsSlice fileBuffer udtaAtom.dataOffset
          (udtaAtom.offset + udtaAtom.size)
        let newUdtaData := beforeMeta ++ metaIlstKaid
        let newUdta := createAtom tagUdta newUdtaData
        let beforeUdta := jsSlice fileBuffer moovAtom.dataOffset
          udtaAtom.offset
        let afterUdta := jsSlice fileBuffer (udtaAtom.offset + udtaAtom.size)
          (moovAtom.offset + moovAtom.size)
        beforeUdta ++ newUdta ++ afterUdta
      | some metaAtom =>
        let newMetaData := updateMetaWithKaid fileBuffer metaAtom
          kaidAtomData
        let newMeta := createAtom tagMeta newMetaData
        let beforeMeta := jsSlice fileBuffer udtaAtom.dataOffset
          metaAtom.offset
        let afterMeta := jsSlice fileBuffer (metaAtom.offset + metaAtom.size)
          (udtaAtom.offset + udtaAtom.size)
        let newUdtaData := beforeMeta ++ newMeta ++ afterMeta
        let newUdta := createAtom tagUdta newUdtaData
        let beforeUdta := jsSlice fileBuffer moovAtom.dataOffset
          udtaAtom.offset
        let afterUdta := jsSlice fileBuffer (udtaAtom.offset + udtaAtom.size)
          (moovAtom.offset + moovAtom.size)
        beforeUdta ++ newUdta ++ afterUdta
  createAtom tagMoov newMoovData

/-- The error thrown at line 72 of `injectKaidAtom`. -/
inductive InjectError where
  | noMoovAtom
deriving DecidableEq, Repr

/-- The pure core of `M4AWriter.injectKaidAtom` (lines 59-186): everything
    between reading the file and writing it back.  Computes the new file
    bytes from the old ones and the UTF-8 kaid JSON, or fails when no
    `moov` atom is found. -/
def injectKaidAtomCore (fileBuffer : List Nat) (kaidJson : List Nat) :
    Except InjectError (List Nat) :=
  let atoms := parseMP4Atoms fileBuffer 0 none
  match atoms.find? (fun a => a.type = tagMoov) with
  | none => Except.error InjectError.noMoovAtom
  | some moovAtom =>
    let newMoov := buildNewMoov fileBuffer kaidJson moovAtom
    let oldMoovSize := moovAtom.size
    let sizeDelta : Int := (newMoov.length : Int) - (oldMoovSize : Int)
    let newMoov₂ :=
      if sizeDelta ≠ 0 then
        let originalMoovEnd := moovAtom.offset + oldMoovSize
        (updateChunkOffsets newMoov sizeDelta originalMoovEnd).buf
      else newMoov
    let beforeMoov := jsSlice fileBuffer 0 moovAtom.offset
    let afterMoov := fileBuffer.drop (moovAtom.offset + moovAtom.size)
    Except.ok (beforeMoov ++ newMoov₂ ++ afterMoov)

/-- A file-system side effect.  The constructors cover both what the code
    actually performs (`readFile`, `writeFile`) and the operations an
    atomic tmp-file publish would need (`fsync`, `rename`), so that their
    absence from a trace is expressible. -/
inductive FsOp where
  | readFile (path : String)
  | writeFile (path : String) (contents : List Nat)
  | fsync (path : String)
  | rename (src : String) (dst : String)
deriving DecidableEq, Repr

/-- The file-system effect trace of `M4AWriter.injectKaidAtom(inputPath,
    outputPath, kaidJson)` (lines 59-186), given the bytes the read
    returns: one `fs.promises.readFile(inputPath)`, then — unless the core
    throws — one `fs.promises.writeFile(outputPath, newFileBuffer)` of the
    rebuilt bytes.  Nothing else touches the file system. -/
def injectKaidAtomOps (inputPath outputPath : String)
    (fileContents : List Nat) (kaidJson : List Nat) : List FsOp :=
  FsOp.readFile inputPath ::
    (match injectKaidAtomCore fileContents kaidJson with
     | Except.ok newFileBuffer => [FsOp.writeFile outputPath newFileBuffer]
     | Except.error _ => [])

/-- One element of `songData.audio.sources`.  Optional fields model
    possibly-`undefined` JS properties; numbers are modelled as `ℚ`. -/
structure SourceIn where
  name : Option String
  filename : Option String
  trackIndex : Option ℚ
deriving DecidableEq

/-- `songData.audio.timing`. -/
structure TimingIn where
  encoderDelaySamples : Option ℚ
  offsetSec : Option ℚ
deriving DecidableEq

/-- `songData.audio`.  `presets` is an opaque passed-through JS value,
    modelled by its JSON text. -/
structure AudioIn where
  sources : Option (List SourceIn)
  profile : Option String
  timing : Option TimingIn
  presets : Option String
deriving DecidableEq

/-- One element of `songData.lyrics`. -/
structure LineIn where
  start : Option ℚ
  startTimeSec : Option ℚ
  «end» : Option ℚ
  endTimeSec : Option ℚ
  text : Option String
  disabled : Bool
deriving DecidableEq

/-- `songData.features`; the three payloads are opaque passed-through
    values (absent means absent-or-falsy). -/
structure FeaturesIn where
  vocalPitch : Option String
  onsets : Option String
  tempo : Option String
deriving DecidableEq

/-- `songData.meta`. -/
structure MetaIn where
  profile : Option String
deriving DecidableEq

/-- The `songData` argument of `M4AWriter.save` /
    `M4AWriter.prepareKaidData`, restricted to the properties those
    functions read. -/
structure SongData where
  audio : Option AudioIn
  meta : Option MetaIn
  lyrics : Option (List LineIn)
  features : Option FeaturesIn
  singers : Option (List String)
deriving DecidableEq

/-- JS `x || d` for numbers: `undefined` and `0` fall through. -/
def jsOrQ (x : Option ℚ) (d : ℚ) : ℚ :=
  match x with
  | none => d
  | some v => if v = 0 then d else v

/-- JS `x || d` for strings: `undefined` and the empty string fall
    through. -/
def jsOrS (x : Option String) (d : String) : String :=
  match x with
  | none => d
  | some v => if v = "" then d else v

/-- JS `a || b` where both sides may be `undefined` (the result may be
    `undefined` too, in which case `JSON.stringify` drops the key). -/
def jsOrSOpt (a b : Option String) : Option String :=
  match a with
  | none => b
  | some s => if s = "" then b else some s

/-- One element of the `sources` array built by `prepareKaidData`. -/
structure KaidSource where
  id : Option String
  role : Option String
  track : ℚ
deriving DecidableEq

/-- One element of the `lines` array built by `prepareKaidData`;
    `disabled` records whether the conditional `disabled: true` key is
    present. -/
structure KaidLine where
  start : ℚ
  «end» : ℚ
  text : String
  disabled : Bool
deriving DecidableEq

/-- The `kaid` value built by `M4AWriter.prepareKaidData` (lines 464-514),
    field-for-field.  `presets`/`vocal_pitch`/`onsets`/`meter`/`singers`
    hold opaque passed-through JSON text; an absent optional field means
    the corresponding key is absent from the produced JSON object. -/
structure KaidData where
  sources : List KaidSource
  profile : String
  encoder_delay_samples : ℚ
  presets : Option String
  offset_sec : ℚ
  lines : List KaidLine
  vocal_pitch : Option String
  onsets : Option String
  meter : Option String
  singers : Option (List String)
deriving DecidableEq

/-- `M4AWriter.prepareKaidData(songData)` (lines 464-514). -/
def prepareKaidData (songData : SongData) : KaidData :=
  { sources :=
      ((songData.audio.bind AudioIn.sources).getD []).enum.map
        (fun p =>
          { id := jsOrSOpt p.2.name p.2.filename,
            role := jsOrSOpt p.2.name p.2.filename,
            track := (p.2.trackIndex).getD (p.1 : ℚ) }),
    profile := jsOrS (songData.audio.bind AudioIn.profile)
      (jsOrS (songData.meta.bind MetaIn.profile) "STEMS-4"),
    encoder_delay_samples :=
      jsOrQ ((songData.audio.bind AudioIn.timing).bind
        TimingIn.encoderDelaySamples) 0,
    presets := songData.audio.bind AudioIn.presets,
    offset_sec :=
      jsOrQ ((songData.audio.bind AudioIn.timing).bind TimingIn.offsetSec) 0,
    lines :=
      (songData.lyrics.getD []).map
        (fun line =>
          { start := jsOrQ line.start (jsOrQ line.startTimeSec 0),
            «end» := jsOrQ line.«end» (jsOrQ line.endTimeSec 0),
            text := jsOrS line.text "",
            disabled := line.disabled }),
    vocal_pitch := songData.features.bind FeaturesIn.vocalPitch,
    onsets := songData.features.bind FeaturesIn.onsets,
    meter := songData.features.bind FeaturesIn.tempo,
    singers :=
      match songData.singers with
      | none => none
      | some l => if l.length > 0 then some l else none }

/-- The keys, in insertion order, of the top-level object literal of
    `prepareKaidData` (after `JSON.stringify` has dropped the spreads that
    were not taken). -/
def kaidTopKeys (k : KaidData) : List String :=
  ["audio", "timing", "lines"] ++
    (match k.vocal_pitch with | some _ => ["vocal_pitch"] | none => []) ++
    (match k.onsets with | some _ => ["onsets"] | none => []) ++
    (match k.meter with | some _ => ["meter"] | none => []) ++
    (match k.singers with | some _ => ["singers"] | none => [])

/-- The keys of the `audio` sub-object literal. -/
def kaidAudioKeys : List String :=
  ["sources", "profile", "encoder_delay_samples", "presets"]

/-- The keys of one element of `lines` (after `JSON.stringify`). -/
def kaidLineKeys (l : KaidLine) : List String :=
  ["start", "end", "text"] ++ (if l.disabled then ["disabled"] else [])

/-- The keys of one element of `sources` (after `JSON.stringify`, which
    drops a key whose value is `undefined`). -/
def kaidSourceKeys (s : KaidSource) : List String :=
  (match s.id with | some _ => ["id"] | none => []) ++
    (match s.role with | some _ => ["role"] | none => []) ++ ["track"]

/-- An opening brace as string data. -/
def lbr : String := "\x7b"

/-- A closing brace as string data. -/
def rbr : String := "\x7d"

/-- A JSON string literal (escaping is omitted: every string this
    development feeds through it is escape-free). -/
def quoteS (s : String) : String := "\"" ++ s ++ "\""

/-- Rendering of a JS number.  For integral values this matches
    `JSON.stringify`; for other rationals it is a stand-in (no theorem
    depends on the textual form of a non-integral number). -/
def numRender (q : ℚ) : String :=
  if q.den = 1 then toString q.num
  else toString q.num ++ "/" ++ toString q.den

/-- One `"key":value` JSON member. -/
def jfield (k v : String) : String := quoteS k ++ ":" ++ v

/-- A JSON object from rendered members. -/
def jobj (fs : List String) : String := lbr ++ String.intercalate "," fs ++ rbr

/-- A JSON array from rendered elements. -/
def jarr (xs : List String) : String := "[" ++ String.intercalate "," xs ++ "]"

/-- `JSON.stringify` of one element of `sources`. -/
def renderKaidSource (s : KaidSource) : String :=
  jobj ((match s.id with
         | some v => [jfield "id" (quoteS v)]
         | none => []) ++
        (match s.role with
         | some v => [jfield "role" (quoteS v)]
         | none => []) ++
        [jfield "track" (numRender s.track)])

/-- `JSON.stringify` of one element of `lines`. -/
def renderKaidLine (l : KaidLine) : String :=
  jobj ([jfield "start" (numRender l.start),
         jfield "end" (numRender l.«end»),
         jfield "text" (quoteS l.text)] ++
        (if l.disabled then [jfield "disabled" "true"] else []))

/-- `JSON.stringify(kaidData)` over the structure `prepareKaidData`
    builds, keys in insertion order. -/
def renderKaid (k : KaidData) : String :=
  jobj ([jfield "audio"
           (jobj [jfield "sources" (jarr (k.sources.map renderKaidSource)),
                  jfield "profile" (quoteS k.profile),
                  jfield "encoder_delay_samples"
                    (numRender k.encoder_delay_samples),
                  jfield "presets" (k.presets.getD "[]")]),
         jfield "timing" (jobj [jfield "offset_sec" (numRender k.offset_sec)]),
         jfield "lines" (jarr (k.lines.map renderKaidLine))] ++
        (match k.vocal_pitch with
         | some v => [jfield "vocal_pitch" v]
         | none => []) ++
        (match k.onsets with
         | some v => [jfield "onsets" v]
         | none => []) ++
        (match k.meter with
         | some v => [jfield "meter" v]
         | none => []) ++
        (match k.singers with
         | some l => [jfield "singers" (jarr l)]
         | none => []))

/-- The outcome of `M4AWriter.save` (lines 16-53): the returned
    `{ success, error? }` value, plus the bytes written to the output
    path if the write happened. -/
structure SaveOutcome where
  success : Bool
  error : Option InjectError
  written : Option (List Nat)
deriving DecidableEq

/-- `M4AWriter.save(songData, outputPath)` (lines 16-53), as a function of
    the bytes currently stored at `outputPath`: prepare the kaid JSON,
    `JSON.stringify` it, inject it via `injectKaidAtom(outputPath,
    outputPath, kaidJson)`, and wrap the thrown error — if any — into
    `{ success: false, error }`.  The post-save `validate` call only logs
    a warning and does not affect the returned value.  No validation of
    any kind is performed on `songData` before writing. -/
def save (songData : SongData) (fileContents : List Nat) : SaveOutcome :=
  let kaidJson := utf8Bytes (renderKaid (prepareKaidData songData))
  match injectKaidAtomCore fileContents kaidJson with
  | Except.ok newFile => ⟨true, none, some newFile⟩
  | Except.error e => ⟨false, some e, none⟩

/-- Any two sufficiently large fuels give `searchF` the same value: the
    scan loop advances `pos` by at least 8 bytes per step (by the declared
    size when it is valid, by 8 otherwise), and the recursion into a
    container covers the strictly shorter range `(pos + 8, pos + size)`,
    so `end - pos` bounds the fuel actually consumed. -/
theorem searchF_congr (delta : Int) (threshold : Nat) :
    ∀ (f₁ f₂ : Nat) (st : ScanSt) (pos endP : Nat),
    endP - pos ≤ f₁ → endP - pos ≤ f₂ →
    searchF delta threshold f₁ st pos endP =
      searchF delta threshold f₂ st pos endP := by
  intro f₁
  induction f₁ with
  | zero =>
    intro f₂ st pos endP h₁ h₂
    match f₂ with
    | 0 => rfl
    | f₂ + 1 =>
      simp only [searchF]
      rw [if_neg (by omega)]
  | succ f ih =>
    intro f₂ st pos endP h₁ h₂
    match f₂ with
    | 0 =>
      simp only [searchF]
      rw [if_neg (by omega)]
    | f₂ + 1 =>
      simp only [searchF]
      by_cases hc : pos + 8 < endP ∧ pos + 8 < st.buf.length
      · rw [if_pos hc, if_pos hc]
        have hend : pos + 8 < endP := hc.1
        by_cases hbad : readU32 st.buf pos < 8 ∨ pos + readU32 st.buf pos > endP
        · rw [if_pos hbad, if_pos hbad]
          exact ih f₂ st (pos + 8) endP (by omega) (by omega)
        · rw [if_neg hbad, if_neg hbad]
          have hsz : 8 ≤ readU32 st.buf pos ∧
              pos + readU32 st.buf pos ≤ endP := by omega
          by_cases hstco : tagAt st.buf (pos + 4) = tagStco
          · rw [if_pos hstco, if_pos hstco]
            by_cases h16 : pos + 16 > st.buf.length
            · rw [if_pos h16, if_pos h16]
              exact ih f₂ _ (pos + 8) endP (by omega) (by omega)
            · rw [if_neg h16, if_neg h16]
              apply ih
              · cases (stcoEntryLoop delta threshold
                  (readU32 st.buf (pos + 12)) st.buf (pos + 16) 0).2.2 <;>
                  simp <;> omega
              · cases (stcoEntryLoop delta threshold
                  (readU32 st.buf (pos + 12)) st.buf (pos + 16) 0).2.2 <;>
                  simp <;> omega
          · rw [if_neg hstco, if_neg hstco]
            by_cases hco : tagAt st.buf (pos + 4) = tagCo64
            · rw [if_pos hco, if_pos hco]
              by_cases h16 : pos + 16 > st.buf.length
              · rw [if_pos h16, if_pos h16]
                exact ih f₂ _ (pos + 8) endP (by omega) (by omega)
              · rw [if_neg h16, if_neg h16]
                apply ih
                · cases (co64EntryLoop delta threshold
                    (readU32 st.buf (pos + 12)) st.buf (pos + 16) 0).2.2 <;>
                    simp <;> omega
                · cases (co64EntryLoop delta threshold
                    (readU32 st.buf (pos + 12)) st.buf (pos + 16) 0).2.2 <;>
                    simp <;> omega
            · rw [if_neg hco, if_neg hco]
              by_cases hcont : tagAt st.buf (pos + 4) = tagTrak ∨
                  tagAt st.buf (pos + 4) = tagMdia ∨
                  tagAt st.buf (pos + 4) = tagMinf ∨
                  tagAt st.buf (pos + 4) = tagStbl ∨
                  tagAt st.buf (pos + 4) = tagMoov
              · rw [if_pos hcont, if_pos hcont]
                rw [ih f₂ st (pos + 8) (pos + readU32 st.buf pos)
                  (by omega) (by omega)]
                exact ih f₂ _ (pos + readU32 st.buf pos) endP
                  (by omega) (by omega)
              · rw [if_neg hcont, if_neg hcont]
                exact ih f₂ st (pos + readU32 st.buf pos) endP
                  (by omega) (by omega)
      · rw [if_neg hc, if_neg hc]

/-- `searchAtoms` satisfies the recurrence of the source's `searchAtoms`
    while-loop. -/
theorem searchAtoms_eq (delta : Int) (threshold : Nat) (st : ScanSt)
    (pos endP : Nat) :
    searchAtoms delta threshold st pos endP =
      if pos + 8 < endP ∧ pos + 8 < st.buf.length then
        let size := readU32 st.buf pos
        if size < 8 ∨ pos + size > endP then
          searchAtoms delta threshold st (pos + 8) endP
        else
          let atype := tagAt st.buf (pos + 4)
          if atype = tagStco then
            let st₁ : ScanSt := { st with stcoCount := st.stcoCount + 1 }
            if pos + 16 > st.buf.length then
              searchAtoms delta threshold st₁ (pos + 8) endP
            else
              let entryCount := readU32 st.buf (pos + 12)
              let r := stcoEntryLoop delta threshold entryCount st.buf
                (pos + 16) 0
              let st₂ : ScanSt :=
                { buf := r.1, stcoCount := st₁.stcoCount,
                  co64Count := st₁.co64Count,
                  totalUpdated := st₁.totalUpdated + r.2.1 }
              searchAtoms delta threshold st₂
                (if r.2.2 then pos + size else pos + 8) endP
          else if atype = tagCo64 then
            let st₁ : ScanSt := { st with co64Count := st.co64Count + 1 }
            if pos + 16 > st.buf.length then
              searchAtoms delta threshold st₁ (pos + 8) endP
            else
              let entryCount := readU32 st.buf (pos + 12)
              let r := co64EntryLoop delta threshold entryCount st.buf
                (pos + 16) 0
              let st₂ : ScanSt :=
                { buf := r.1, stcoCount := st₁.stcoCount,
                  co64Count := st₁.co64Count,
                  totalUpdated := st₁.totalUpdated + r.2.1 }
              searchAtoms delta threshold st₂
                (if r.2.2 then pos + size else pos + 8) endP
          else if atype = tagTrak ∨ atype = tagMdia ∨ atype = tagMinf ∨
              atype = tagStbl ∨ atype = tagMoov then
            let st' := searchAtoms delta threshold st (pos + 8) (pos + size)
            searchAtoms delta threshold st' (pos + size) endP
          else
            searchAtoms delta threshold st (pos + size) endP
      else st := by
  by_cases hc : pos + 8 < endP ∧ pos + 8 < st.buf.length
  · have hpos : 1 ≤ endP - pos := by omega
    obtain ⟨k, hk⟩ : ∃ k, endP - pos = k + 1 := ⟨endP - pos - 1, by omega⟩
    rw [if_pos hc]
    unfold searchAtoms
    rw [hk]
    simp only [searchF, if_pos hc]
    have hend : pos + 8 < endP := hc.1
    by_cases hbad : readU32 st.buf pos < 8 ∨ pos + readU32 st.buf pos > endP
    · rw [if_pos hbad, if_pos hbad]
      exact searchF_congr delta threshold k (endP - (pos + 8)) st (pos + 8)
        endP (by omega) (le_refl _)
    · rw [if_neg hbad, if_neg hbad]
      have hsz : 8 ≤ readU32 st.buf pos ∧
          pos + readU32 st.buf pos ≤ endP := by omega
      by_cases hstco : tagAt st.buf (pos + 4) = tagStco
      · rw [if_pos hstco, if_pos hstco]
        by_cases h16 : pos + 16 > st.buf.length
        · rw [if_pos h16, if_pos h16]
          exact searchF_congr delta threshold k _ _ (pos + 8) endP
            (by omega) (le_refl _)
        · rw [if_neg h16, if_neg h16]
          apply searchF_congr
          · cases (stcoEntryLoop delta threshold
              (readU32 st.buf (pos + 12)) st.buf (pos + 16) 0).2.2 <;>
              simp <;> omega
          · exact le_refl _
      · rw [if_neg hstco, if_neg hstco]
        by_cases hco : tagAt st.buf (pos + 4) = tagCo64
        · rw [if_pos hco, if_pos hco]
          by_cases h16 : pos + 16 > st.buf.length
          · rw [if_pos h16, if_pos h16]
            exact searchF_congr delta threshold k _ _ (pos + 8) endP
              (by omega) (le_refl _)
          · rw [if_neg h16, if_neg h16]
            apply searchF_congr
            · cases (co64EntryLoop delta threshold
                (readU32 st.buf (pos + 12)) st.buf (pos + 16) 0).2.2 <;>
                simp <;> omega
            · exact le_refl _
        · rw [if_neg hco, if_neg hco]
          by_cases hcont : tagAt st.buf (pos + 4) = tagTrak ∨
              tagAt st.buf (pos + 4) = tagMdia ∨
              tagAt st.buf (pos + 4) = tagMinf ∨
              tagAt st.buf (pos + 4) = tagStbl ∨
              tagAt st.buf (pos + 4) = tagMoov
          · rw [if_pos hcont, if_pos hcont]
            rw [searchF_congr delta threshold k
              (pos + readU32 st.buf pos - (pos + 8)) st (pos + 8)
              (pos + readU32 st.buf pos) (by omega) (le_refl _)]
            exact searchF_congr delta threshold k _ _
              (pos + readU32 st.buf pos) endP (by omega) (le_refl _)
          · rw [if_neg hcont, if_neg hcont]
            exact searchF_congr delta threshold k _ _
              (pos + readU32 st.buf pos) endP (by omega) (le_refl _)
  · rw [if_neg hc]
    unfold searchAtoms
    rcases Nat.eq_zero_or_pos (endP - pos) with h0 | hpos
    · rw [h0]; rfl
    · obtain ⟨k, hk⟩ : ∃ k, endP - pos = k + 1 := ⟨endP - pos - 1, by omega⟩
      rw [hk]
      simp only [searchF]
      rw [if_neg hc]

/-- A well-formed slice of box-tree layout, as the chunk-offset rewriter
    sees it: chunk-offset tables (`stco` with 32-bit entries, `co64` with
    64-bit entries, each with a 4-byte version/flags word and a 4-byte
    entry count before the entries), container boxes the scan recurses
    into, and opaque leaf boxes it skips. -/
inductive MAtom where
  | stco (entries : List Nat)
  | co64 (entries : List Nat)
  | node (tag : List Nat) (children : List MAtom)
  | leaf (tag : List Nat) (payload : List Nat)

mutual

/-- Serialise one box. -/
def encAtom : MAtom → List Nat
  | .stco es =>
    u32BE (16 + 4 * es.length) ++ tagStco ++ u32BE 0 ++ u32BE es.length ++
      es.flatMap u32BE
  | .co64 es =>
    u32BE (16 + 8 * es.length) ++ tagCo64 ++ u32BE 0 ++ u32BE es.length ++
      es.flatMap u64BE
  | .node t cs => u32BE (8 + (encForest cs).length) ++ t ++ encForest cs
  | .leaf t p => u32BE (8 + p.length) ++ t ++ p

/-- Serialise a sequence of sibling boxes. -/
def encForest : List MAtom → List Nat
  | [] => []
  | a :: as => encAtom a ++ encForest as

end

/-- The entry rewrite in the spec's words: "for each entry `o`: if
    `o ≥ T`, replace with `o + Δ`.  All other entries are left
    untouched." -/
def specShift (delta : Int) (threshold : Nat) (o : Nat) : Nat :=
  if threshold ≤ o then ((o : Int) + delta).toNat else o

mutual

/-- Apply the spec's entry rewrite to every `stco`/`co64` table of a box. -/
def mapAtom (delta : Int) (threshold : Nat) : MAtom → MAtom
  | .stco es => .stco (es.map (specShift delta threshold))
  | .co64 es => .co64 (es.map (specShift delta threshold))
  | .node t cs => .node t (mapForest delta threshold cs)
  | .leaf t p => .leaf t p

/-- `mapAtom` over a sequence of sibling boxes. -/
def mapForest (delta : Int) (threshold : Nat) : List MAtom → List MAtom
  | [] => []
  | a :: as => mapAtom delta threshold a :: mapForest delta threshold as

end

mutual

/-- Number of `stco` tables in a box. -/
def cntStcoA : MAtom → Nat
  | .stco _ => 1
  | .co64 _ => 0
  | .node _ cs => cntStcoF cs
  | .leaf _ _ => 0

/-- Number of `stco` tables in a sequence of sibling boxes. -/
def cntStcoF : List MAtom → Nat
  | [] => 0
  | a :: as => cntStcoA a + cntStcoF as

end

mutual

/-- Number of `co64` tables in a box. -/
def cntCo64A : MAtom → Nat
  | .stco _ => 0
  | .co64 _ => 1
  | .node _ cs => cntCo64F cs
  | .leaf _ _ => 0

/-- Number of `co64` tables in a sequence of sibling boxes. -/
def cntCo64F : List MAtom → Nat
  | [] => 0
  | a :: as => cntCo64A a + cntCo64F as

end

mutual

/-- Number of chunk-offset entries `≥ threshold` in a box. -/
def cntGEA (threshold : Nat) : MAtom → Nat
  | .stco es => (es.filter (fun o => threshold ≤ o)).length
  | .co64 es => (es.filter (fun o => threshold ≤ o)).length
  | .node _ cs => cntGEF threshold cs
  | .leaf _ _ => 0

/-- Number of chunk-offset entries `≥ threshold` in a sequence of
    sibling boxes. -/
def cntGEF (threshold : Nat) : List MAtom → Nat
  | [] => 0
  | a :: as => cntGEA threshold a + cntGEF threshold as

end

mutual

/-- Well-formedness of one box: sizes fit in the 32-bit size field,
    `stco` entries fit in 32 bits, `co64` entries stay below 2^53 (where
    `Number(BigInt)` is exact), container tags are exactly the five the
    scan recurses into, and leaf tags are 4 bytes long and are none of the
    seven tags the scan treats specially. -/
def WfAtom : MAtom → Prop
  | .stco es => 16 + 4 * es.length < 4294967296 ∧ ∀ o ∈ es, o < 4294967296
  | .co64 es => 16 + 8 * es.length < 4294967296 ∧ ∀ o ∈ es, o < 9007199254740992
  | .node t cs =>
      (t = tagTrak ∨ t = tagMdia ∨ t = tagMinf ∨ t = tagStbl ∨ t = tagMoov) ∧
      8 + (encForest cs).length < 4294967296 ∧ WfForest cs
  | .leaf t p =>
      t.length = 4 ∧ 8 + p.length < 4294967296 ∧
      ¬(t = tagStco ∨ t = tagCo64 ∨ t = tagTrak ∨ t = tagMdia ∨
        t = tagMinf ∨ t = tagStbl ∨ t = tagMoov)

/-- Well-formedness of a sequence of sibling boxes. -/
def WfForest : List MAtom → Prop
  | [] => True
  | a :: as => WfAtom a ∧ WfForest as

end

mutual

/-- The no-overflow condition of one box: every entry the rewrite touches
    stays inside its table's representable range after the shift. -/
def FitsAtom (delta : Int) (threshold : Nat) : MAtom → Prop
  | .stco es => ∀ o ∈ es, threshold ≤ o →
      0 ≤ (o : Int) + delta ∧ (o : Int) + delta ≤ 4294967295
  | .co64 es => ∀ o ∈ es, threshold ≤ o →
      0 ≤ (o : Int) + delta ∧ (o : Int) + delta ≤ 18446744073709551615
  | .node _ cs => FitsForest delta threshold cs
  | .leaf _ _ => True

/-- `FitsAtom` over a sequence of sibling boxes. -/
def FitsForest (delta : Int) (threshold : Nat) : List MAtom → Prop
  | [] => True
  | a :: as => FitsAtom delta threshold a ∧ FitsForest delta threshold as

end

theorem u32BE_length (n : Nat) : (u32BE n).length = 4 := rfl

theorem u64BE_length (n : Nat) : (u64BE n).length = 8 := rfl

theorem flatMap_u32BE_length (es : List Nat) :
    (es.flatMap u32BE).length = 4 * es.length := by
  induction es with
  | nil => rfl
  | cons o es ih =>
    simp only [List.flatMap_cons, List.length_append, ih, u32BE_length,
      List.length_cons]
    ring

theorem flatMap_u64BE_length (es : List Nat) :
    (es.flatMap u64BE).length = 8 * es.length := by
  induction es with
  | nil => rfl
  | cons o es ih =>
    simp only [List.flatMap_cons, List.length_append, ih, u64BE_length,
      List.length_cons]
    ring

theorem getD_append_at (pre l : List Nat) (i d : Nat) :
    (pre ++ l).getD (pre.length + i) d = l.getD i d := by
  rw [List.getD_append_right pre l d (pre.length + i) (by omega)]
  congr 1
  omega

theorem readU32_at (pre rest : List Nat) (n p : Nat)
    (hn : n < 4294967296) (hp : p = pre.length) :
    readU32 (pre ++ (u32BE n ++ rest)) p = n := by
  subst hp
  unfold readU32
  have h0 := getD_append_at pre (u32BE n ++ rest) 0 0
  have h1 := getD_append_at pre (u32BE n ++ rest) 1 0
  have h2 := getD_append_at pre (u32BE n ++ rest) 2 0
  have h3 := getD_append_at pre (u32BE n ++ rest) 3 0
  simp only [Nat.add_zero] at h0
  rw [h0, h1, h2, h3]
  simp only [u32BE, List.cons_append, List.getD_cons_zero,
    List.getD_cons_succ]
  omega

theorem readU64_at (pre rest : List Nat) (n p : Nat)
    (hn : n < 18446744073709551616) (hp : p = pre.length) :
    readU64 (pre ++ (u64BE n ++ rest)) p = n := by
  subst hp
  unfold readU64
  have h0 := getD_append_at pre (u64BE n ++ rest) 0 0
  have h1 := getD_append_at pre (u64BE n ++ rest) 1 0
  have h2 := getD_append_at pre (u64BE n ++ rest) 2 0
  have h3 := getD_append_at pre (u64BE n ++ rest) 3 0
  have h4 := getD_append_at pre (u64BE n ++ rest) 4 0
  have h5 := getD_append_at pre (u64BE n ++ rest) 5 0
  have h6 := getD_append_at pre (u64BE n ++ rest) 6 0
  have h7 := getD_append_at pre (u64BE n ++ rest) 7 0
  simp only [Nat.add_zero] at h0
  rw [h0, h1, h2, h3, h4, h5, h6, h7]
  simp only [u64BE, List.cons_append, List.getD_cons_zero,
    List.getD_cons_succ]
  omega

theorem tagAt_at (pre rest : List Nat) (a b c d : Nat) (p : Nat)
    (hp : p = pre.length) :
    tagAt (pre ++ ([a, b, c, d] ++ rest)) p = [a, b, c, d] := by
  subst hp
  unfold tagAt
  have h0 := getD_append_at pre ([a, b, c, d] ++ rest) 0 0
  have h1 := getD_append_at pre ([a, b, c, d] ++ rest) 1 0
  have h2 := getD_append_at pre ([a, b, c, d] ++ rest) 2 0
  have h3 := getD_append_at pre ([a, b, c, d] ++ rest) 3 0
  simp only [Nat.add_zero] at h0
  rw [h0, h1, h2, h3]
  simp [List.getD]

theorem length4_exists (l : List Nat) (h : l.length = 4) :
    ∃ a b c d, l = [a, b, c, d] := by
  match l, h with
  | [a, b, c, d], _ => exact ⟨a, b, c, d, rfl⟩

theorem writeBytes_at (pre old rest v : List Nat) (p : Nat)
    (hlen : v.length = old.length) (hp : p = pre.length) :
    writeBytes (pre ++ (old ++ rest)) p v = pre ++ (v ++ rest) := by
  subst hp
  unfold writeBytes
  rw [← List.append_assoc pre old rest]
  have htake : ((pre ++ old) ++ rest).take pre.length = pre := by
    rw [List.take_append_of_le_length (by simp)]
    rw [List.take_append_of_le_length (by omega)]
    simp
  have hdrop : ((pre ++ old) ++ rest).drop (pre.length + v.length) = rest := by
    have : pre.length + v.length = (pre ++ old).length := by
      simp [hlen]
    rw [this, List.drop_left]
  rw [htake, hdrop]
  simp

/-- The `stco` entry loop rewrites exactly the entries `≥ threshold`,
    adding `delta` to each, provided every rewritten value fits in 32
    bits; it reports one update per rewritten entry. -/
theorem stcoEntryLoop_spec (delta : Int) (threshold : Nat) :
    ∀ (es pre post : List Nat) (u₀ : Nat),
    (∀ o ∈ es, o < 4294967296) →
    (∀ o ∈ es, threshold ≤ o →
      0 ≤ (o : Int) + delta ∧ (o : Int) + delta ≤ 4294967295) →
    stcoEntryLoop delta threshold es.length
        (pre ++ (es.flatMap u32BE ++ post)) pre.length u₀ =
      (pre ++ ((es.map (specShift delta threshold)).flatMap u32BE ++ post),
       u₀ + (es.filter (fun o => threshold ≤ o)).length, true) := by
  intro es
  induction es with
  | nil =>
    intro pre post u₀ _ _
    simp [stcoEntryLoop]
  | cons o es ih =>
    intro pre post u₀ hrange hfits
    have ho : o < 4294967296 := hrange o (by simp)
    simp only [List.length_cons, stcoEntryLoop]
    have hbuf : pre ++ ((o :: es).flatMap u32BE ++ post) =
        pre ++ (u32BE o ++ (es.flatMap u32BE ++ post)) := by
      simp [List.flatMap_cons]
    rw [hbuf]
    have hlen4 : ¬ (pre.length + 4 >
        (pre ++ (u32BE o ++ (es.flatMap u32BE ++ post))).length) := by
      simp [u32BE_length]
    rw [if_neg hlen4]
    rw [readU32_at pre (es.flatMap u32BE ++ post) o pre.length ho rfl]
    by_cases hge : o ≥ threshold
    · rw [if_pos hge]
      obtain ⟨hlo, hhi⟩ := hfits o (by simp) hge
      rw [if_neg (by omega)]
      rw [writeBytes_at pre (u32BE o) (es.flatMap u32BE ++ post)
        (u32BE ((o + delta : Int).toNat)) pre.length rfl rfl]
      have hre : pre ++ (u32BE ((o + delta : Int).toNat) ++
          (es.flatMap u32BE ++ post)) =
          (pre ++ u32BE ((o + delta : Int).toNat)) ++
            (es.flatMap u32BE ++ post) := by
        simp [List.append_assoc]
      rw [hre]
      have hoff : pre.length + 4 =
          (pre ++ u32BE ((o + delta : Int).toNat)).length := by
        simp [u32BE_length]
      rw [hoff]
      rw [ih (pre ++ u32BE ((o + delta : Int).toNat))
        post (u₀ + 1) (fun x hx => hrange x (List.mem_cons_of_mem _ hx))
        (fun x hx h => hfits x (List.mem_cons_of_mem _ hx) h)]
      have hshift : specShift delta threshold o = (o + delta : Int).toNat := by
        unfold specShift
        rw [if_pos hge]
      simp only [Prod.mk.injEq]
      refine ⟨?_, ?_, trivial⟩
      · simp [List.map_cons, List.flatMap_cons, hshift, List.append_assoc]
      · simp only [List.filter_cons, decide_eq_true_eq]
        rw [if_pos hge]
        simp only [List.length_cons]
        omega
    · rw [if_neg hge]
      have hre : pre ++ (u32BE o ++ (es.flatMap u32BE ++ post)) =
          (pre ++ u32BE o) ++ (es.flatMap u32BE ++ post) := by
        simp [List.append_assoc]
      rw [hre]
      have hoff : pre.length + 4 = (pre ++ u32BE o).length := by
        simp [u32BE_length]
      rw [hoff]
      rw [ih (pre ++ u32BE o) post u₀ (fun x hx => hrange x (List.mem_cons_of_mem _ hx))
        (fun x hx h => hfits x (List.mem_cons_of_mem _ hx) h)]
      have hshift : specShift delta threshold o = o := by
        unfold specShift
        rw [if_neg hge]
      simp only [Prod.mk.injEq]
      refine ⟨?_, ?_, trivial⟩
      · simp [List.map_cons, List.flatMap_cons, hshift, List.append_assoc]
      · simp only [List.filter_cons, decide_eq_true_eq]
        rw [if_neg hge]

/-- The `co64` entry loop rewrites exactly the entries `≥ threshold`,
    adding `delta` to each, provided every rewritten value fits in 64
    bits (entries below 2^53, where the model is exact). -/
theorem co64EntryLoop_spec (delta : Int) (threshold : Nat) :
    ∀ (es pre post : List Nat) (u₀ : Nat),
    (∀ o ∈ es, o < 9007199254740992) →
    (∀ o ∈ es, threshold ≤ o →
      0 ≤ (o : Int) + delta ∧ (o : Int) + delta ≤ 18446744073709551615) →
    co64EntryLoop delta threshold es.length
        (pre ++ (es.flatMap u64BE ++ post)) pre.length u₀ =
      (pre ++ ((es.map (specShift delta threshold)).flatMap u64BE ++ post),
       u₀ + (es.filter (fun o => threshold ≤ o)).length, true) := by
  intro es
  induction es with
  | nil =>
    intro pre post u₀ _ _
    simp [co64EntryLoop]
  | cons o es ih =>
    intro pre post u₀ hrange hfits
    have ho : o < 18446744073709551616 := by
      have := hrange o (by simp)
      omega
    simp only [List.length_cons, co64EntryLoop]
    have hbuf : pre ++ ((o :: es).flatMap u64BE ++ post) =
        pre ++ (u64BE o ++ (es.flatMap u64BE ++ post)) := by
      simp [List.flatMap_cons]
    rw [hbuf]
    have hlen8 : ¬ (pre.length + 8 >
        (pre ++ (u64BE o ++ (es.flatMap u64BE ++ post))).length) := by
      simp [u64BE_length]
    rw [if_neg hlen8]
    rw [readU64_at pre (es.flatMap u64BE ++ post) o pre.length ho rfl]
    by_cases hge : o ≥ threshold
    · rw [if_pos hge]
      obtain ⟨hlo, hhi⟩ := hfits o (by simp) hge
      rw [if_neg (by omega)]
      rw [writeBytes_at pre (u64BE o) (es.flatMap u64BE ++ post)
        (u64BE ((o + delta : Int).toNat)) pre.length rfl rfl]
      have hre : pre ++ (u64BE ((o + delta : Int).toNat) ++
          (es.flatMap u64BE ++ post)) =
          (pre ++ u64BE ((o + delta : Int).toNat)) ++
            (es.flatMap u64BE ++ post) := by
        simp [List.append_assoc]
      rw [hre]
      have hoff : pre.length + 8 =
          (pre ++ u64BE ((o + delta : Int).toNat)).length := by
        simp [u64BE_length]
      rw [hoff]
      rw [ih (pre ++ u64BE ((o + delta : Int).toNat))
        post (u₀ + 1) (fun x hx => hrange x (List.mem_cons_of_mem _ hx))
        (fun x hx h => hfits x (List.mem_cons_of_mem _ hx) h)]
      have hshift : specShift delta threshold o = (o + delta : Int).toNat := by
        unfold specShift
        rw [if_pos hge]
      simp only [Prod.mk.injEq]
      refine ⟨?_, ?_, trivial⟩
      · simp [List.map_cons, List.flatMap_cons, hshift, List.append_assoc]
      · simp only [List.filter_cons, decide_eq_true_eq]
        rw [if_pos hge]
        simp only [List.length_cons]
        omega
    · rw [if_neg hge]
      have hre : pre ++ (u64BE o ++ (es.flatMap u64BE ++ post)) =
          (pre ++ u64BE o) ++ (es.flatMap u64BE ++ post) := by
        simp [List.append_assoc]
      rw [hre]
      have hoff : pre.length + 8 = (pre ++ u64BE o).length := by
        simp [u64BE_length]
      rw [hoff]
      rw [ih (pre ++ u64BE o) post u₀ (fun x hx => hrange x (List.mem_cons_of_mem _ hx))
        (fun x hx h => hfits x (List.mem_cons_of_mem _ hx) h)]
      have hshift : specShift delta threshold o = o := by
        unfold specShift
        rw [if_neg hge]
      simp only [Prod.mk.injEq]
      refine ⟨?_, ?_, trivial⟩
      · simp [List.map_cons, List.flatMap_cons, hshift, List.append_assoc]
      · simp only [List.filter_cons, decide_eq_true_eq]
        rw [if_neg hge]

theorem encAtom_stco_length (es : List Nat) :
    (encAtom (.stco es)).length = 16 + 4 * es.length := by
  simp only [encAtom, List.length_append, u32BE_length,
    flatMap_u32BE_length, tagStco, List.length_cons, List.length_nil]

theorem encAtom_co64_length (es : List Nat) :
    (encAtom (.co64 es)).length = 16 + 8 * es.length := by
  simp only [encAtom, List.length_append, u32BE_length,
    flatMap_u64BE_length, tagCo64, List.length_cons, List.length_nil]

theorem encAtom_node_length (t : List Nat) (cs : List MAtom) :
    (encAtom (.node t cs)).length = 4 + t.length + (encForest cs).length := by
  simp only [encAtom, List.length_append, u32BE_length]

theorem encAtom_leaf_length (t p : List Nat) :
    (encAtom (.leaf t p)).length = 4 + t.length + p.length := by
  simp only [encAtom, List.length_append, u32BE_length]

/-- Each of the five container tags is 4 bytes long. -/
theorem container_tag_length (t : List Nat)
    (h : t = tagTrak ∨ t = tagMdia ∨ t = tagMinf ∨ t = tagStbl ∨
      t = tagMoov) : t.length = 4 := by
  rcases h with h | h | h | h | h <;> subst h <;> rfl

/-- A well-formed box encodes to at least 8 bytes. -/
theorem encAtom_length_ge8 (a : MAtom) (h : WfAtom a) :
    8 ≤ (encAtom a).length := by
  cases a with
  | stco es => rw [encAtom_stco_length]; omega
  | co64 es => rw [encAtom_co64_length]; omega
  | node t cs =>
    rw [encAtom_node_length]
    have := container_tag_length t h.1
    omega
  | leaf t p =>
    rw [encAtom_leaf_length]
    have := h.1
    omega

/-- A well-formed forest that encodes to zero bytes is empty. -/
theorem encForest_length_zero (ts : List MAtom) (hwf : WfForest ts)
    (h : (encForest ts).length = 0) : ts = [] := by
  cases ts with
  | nil => rfl
  | cons a as =>
    exfalso
    have h8 := encAtom_length_ge8 a hwf.1
    simp only [encForest, List.length_append] at h
    omega

mutual

/-- The spec's entry rewrite does not change the encoded length of a
    box. -/
theorem encAtom_map_length (delta : Int) (threshold : Nat) (a : MAtom) :
    (encAtom (mapAtom delta threshold a)).length = (encAtom a).length := by
  cases a with
  | stco es =>
    simp only [mapAtom, encAtom_stco_length, List.length_map]
  | co64 es =>
    simp only [mapAtom, encAtom_co64_length, List.length_map]
  | node t cs =>
    simp [mapAtom, encAtom_node_length,
      encForest_map_length delta threshold cs]
  | leaf t p => rfl

/-- The spec's entry rewrite does not change the encoded length of a
    forest. -/
theorem encForest_map_length (delta : Int) (threshold : Nat)
    (ts : List MAtom) :
    (encForest (mapForest delta threshold ts)).length =
      (encForest ts).length := by
  cases ts with
  | nil => rfl
  | cons a as =>
    simp [mapForest, encForest, encAtom_map_length delta threshold a,
      encForest_map_length delta threshold as]

end

/-- A well-formed box that encodes to exactly 8 bytes is left unchanged by
    the spec rewrite and contains no tables and no entries. -/
theorem encAtom_length_eq8 (delta : Int) (threshold : Nat) (a : MAtom)
    (hwf : WfAtom a) (h : (encAtom a).length = 8) :
    mapAtom delta threshold a = a ∧ cntStcoA a = 0 ∧ cntCo64A a = 0 ∧
      cntGEA threshold a = 0 := by
  cases a with
  | stco es => rw [encAtom_stco_length] at h; omega
  | co64 es => rw [encAtom_co64_length] at h; omega
  | node t cs =>
    rw [encAtom_node_length] at h
    have ht := container_tag_length t hwf.1
    have hcs : cs = [] :=
      encForest_length_zero cs hwf.2.2 (by omega)
    subst hcs
    exact ⟨by simp [mapAtom, mapForest], rfl, rfl, rfl⟩
  | leaf t p =>
    exact ⟨rfl, rfl, rfl, rfl⟩

theorem tagAt_len4 (pre rest t : List Nat) (p : Nat) (h4 : t.length = 4)
    (hp : p = pre.length) :
    tagAt (pre ++ (t ++ rest)) p = t := by
  obtain ⟨a, b, c, d, rfl⟩ := length4_exists t h4
  exact tagAt_at pre rest a b c d p hp

set_option maxHeartbeats 1000000 in
theorem searchAtoms_refines (k : Nat) :
    ∀ (ts : List MAtom) (pre post : List Nat) (delta : Int)
      (threshold c₁ c₂ c₃ : Nat),
    (encForest ts).length ≤ k → WfForest ts → FitsForest delta threshold ts →
    searchAtoms delta threshold ⟨pre ++ (encForest ts ++ post), c₁, c₂, c₃⟩
      pre.length (pre.length + (encForest ts).length) =
      ⟨pre ++ (encForest (mapForest delta threshold ts) ++ post),
       c₁ + cntStcoF ts, c₂ + cntCo64F ts, c₃ + cntGEF threshold ts⟩ := by
  induction k using Nat.strong_induction_on with
  | _ k IH =>
    intro ts pre post delta threshold c₁ c₂ c₃ hk hwf hfits
    cases ts with
    | nil =>
      rw [searchAtoms_eq]
      rw [if_neg (by simp [encForest])]
      simp [mapForest, cntStcoF, cntCo64F, cntGEF]
    | cons a as =>
      have hwfa : WfAtom a := hwf.1
      have hwfas : WfForest as := hwf.2
      have hfa : FitsAtom delta threshold a := hfits.1
      have hfas : FitsForest delta threshold as := hfits.2
      have h8 : 8 ≤ (encAtom a).length := encAtom_length_ge8 a hwfa
      have hlen : (encForest (a :: as)).length =
          (encAtom a).length + (encForest as).length := by
        simp [encForest]
      by_cases hend : pre.length + 8 <
          pre.length + (encForest (a :: as)).length
      · -- the head box is scanned
        cases a with
        | stco es =>
          simp only [WfAtom] at hwfa
          obtain ⟨hs32, hes32⟩ := hwfa
          simp only [FitsAtom] at hfa
          have hsl : (encAtom (MAtom.stco es)).length = 16 + 4 * es.length :=
            encAtom_stco_length es
          have hread : readU32
              (pre ++ (encForest (MAtom.stco es :: as) ++ post)) pre.length =
              16 + 4 * es.length := by
            rw [show pre ++ (encForest (MAtom.stco es :: as) ++ post) =
              pre ++ (u32BE (16 + 4 * es.length) ++ (tagStco ++ (u32BE 0 ++
                (u32BE es.length ++ (es.flatMap u32BE ++
                  (encForest as ++ post)))))) from by
              simp [encForest, encAtom, List.append_assoc]]
            exact readU32_at _ _ _ _ hs32 rfl
          have htg : tagAt
              (pre ++ (encForest (MAtom.stco es :: as) ++ post))
              (pre.length + 4) = tagStco := by
            rw [show pre ++ (encForest (MAtom.stco es :: as) ++ post) =
              (pre ++ u32BE (16 + 4 * es.length)) ++ (tagStco ++ (u32BE 0 ++
                (u32BE es.length ++ (es.flatMap u32BE ++
                  (encForest as ++ post))))) from by
              simp [encForest, encAtom, List.append_assoc]]
            exact tagAt_len4 _ _ _ _ rfl (by simp [u32BE_length])
          have hcnt : readU32
              (pre ++ (encForest (MAtom.stco es :: as) ++ post))
              (pre.length + 12) = es.length := by
            rw [show pre ++ (encForest (MAtom.stco es :: as) ++ post) =
              ((pre ++ u32BE (16 + 4 * es.length)) ++ (tagStco ++ u32BE 0)) ++
                (u32BE es.length ++ (es.flatMap u32BE ++
                  (encForest as ++ post))) from by
              simp [encForest, encAtom, List.append_assoc]]
            exact readU32_at _ _ _ _ (by omega)
              (by simp [u32BE_length, tagStco])
          have hblen : (pre ++ (encForest (MAtom.stco es :: as) ++
              post)).length = pre.length + ((encForest
              (MAtom.stco es :: as)).length + post.length) := by simp
          rw [searchAtoms_eq]
          rw [if_pos ⟨hend, by rw [hblen]; omega⟩]
          simp only [hread, htg, hcnt]
          rw [if_neg (by rw [hlen, hsl]; omega)]
          rw [if_pos trivial]
          rw [if_neg (by rw [hblen, hlen, hsl]; omega)]
          have hloop : stcoEntryLoop delta threshold es.length
              (pre ++ (encForest (MAtom.stco es :: as) ++ post))
              (pre.length + 16) 0 =
              ((pre ++ (u32BE (16 + 4 * es.length) ++ (tagStco ++
                  (u32BE 0 ++ u32BE es.length)))) ++
                ((es.map (specShift delta threshold)).flatMap u32BE ++
                  (encForest as ++ post)),
               0 + (es.filter (fun o => threshold ≤ o)).length, true) := by
            rw [show pre ++ (encForest (MAtom.stco es :: as) ++ post) =
              (pre ++ (u32BE (16 + 4 * es.length) ++ (tagStco ++
                  (u32BE 0 ++ u32BE es.length)))) ++
                (es.flatMap u32BE ++ (encForest as ++ post)) from by
              simp [encForest, encAtom, List.append_assoc]]
            rw [show pre.length + 16 =
              (pre ++ (u32BE (16 + 4 * es.length) ++ (tagStco ++
                  (u32BE 0 ++ u32BE es.length)))).length from by
              simp [u32BE_length, tagStco]]
            exact stcoEntryLoop_spec delta threshold es _ _ 0 hes32 hfa
          rw [hloop]
          dsimp only
          rw [if_pos rfl]
          have hmapenc : (pre ++ (u32BE (16 + 4 * es.length) ++ (tagStco ++
              (u32BE 0 ++ u32BE es.length)))) ++
                ((es.map (specShift delta threshold)).flatMap u32BE ++
                  (encForest as ++ post)) =
              (pre ++ encAtom (mapAtom delta threshold (MAtom.stco es))) ++
                (encForest as ++ post) := by
            simp [mapAtom, encAtom, List.length_map, List.append_assoc]
          have hpos2 : pre.length + (16 + 4 * es.length) =
              (pre ++ encAtom (mapAtom delta threshold
                (MAtom.stco es))).length := by
            rw [List.length_append, encAtom_map_length, hsl]
          have hend2 : pre.length + (encForest (MAtom.stco es :: as)).length =
              (pre ++ encAtom (mapAtom delta threshold
                (MAtom.stco es))).length + (encForest as).length := by
            rw [List.length_append, encAtom_map_length, hsl, hlen, hsl]
            omega
          rw [hmapenc, hpos2, hend2]
          have er_lt : (encForest as).length < k := by
            rw [hlen, hsl] at hk
            omega
          refine (IH (encForest as).length er_lt as
            (pre ++ encAtom (mapAtom delta threshold (MAtom.stco es))) post
            delta threshold (c₁ + 1) c₂
            (c₃ + (0 + (es.filter (fun o => threshold ≤ o)).length))
            (le_refl _) hwfas hfas).trans ?_
          simp only [mapForest, encForest, cntStcoF, cntStcoA, cntCo64F,
            cntCo64A, cntGEF, cntGEA, ScanSt.mk.injEq]
          refine ⟨by simp [List.append_assoc], by omega, by omega, ?_⟩
          simp [List.filter]
          omega
        | co64 es =>
          simp only [WfAtom] at hwfa
          obtain ⟨hs32, hes53⟩ := hwfa
          simp only [FitsAtom] at hfa
          have hsl : (encAtom (MAtom.co64 es)).length = 16 + 8 * es.length :=
            encAtom_co64_length es
          have hread : readU32
              (pre ++ (encForest (MAtom.co64 es :: as) ++ post)) pre.length =
              16 + 8 * es.length := by
            rw [show pre ++ (encForest (MAtom.co64 es :: as) ++ post) =
              pre ++ (u32BE (16 + 8 * es.length) ++ (tagCo64 ++ (u32BE 0 ++
                (u32BE es.length ++ (es.flatMap u64BE ++
                  (encForest as ++ post)))))) from by
              simp [encForest, encAtom, List.append_assoc]]
            exact readU32_at _ _ _ _ hs32 rfl
          have htg : tagAt
              (pre ++ (encForest (MAtom.co64 es :: as) ++ post))
              (pre.length + 4) = tagCo64 := by
            rw [show pre ++ (encForest (MAtom.co64 es :: as) ++ post) =
              (pre ++ u32BE (16 + 8 * es.length)) ++ (tagCo64 ++ (u32BE 0 ++
                (u32BE es.length ++ (es.flatMap u64BE ++
                  (encForest as ++ post))))) from by
              simp [encForest, encAtom, List.append_assoc]]
            exact tagAt_len4 _ _ _ _ rfl (by simp [u32BE_length])
          have hcnt : readU32
              (pre ++ (encForest (MAtom.co64 es :: as) ++ post))
              (pre.length + 12) = es.length := by
            rw [show pre ++ (encForest (MAtom.co64 es :: as) ++ post) =
              ((pre ++ u32BE (16 + 8 * es.length)) ++ (tagCo64 ++ u32BE 0)) ++
                (u32BE es.length ++ (es.flatMap u64BE ++
                  (encForest as ++ post))) from by
              simp [encForest, encAtom, List.append_assoc]]
            exact readU32_at _ _ _ _ (by omega)
              (by simp [u32BE_length, tagCo64])
          have hblen : (pre ++ (encForest (MAtom.co64 es :: as) ++
              post)).length = pre.length + ((encForest
              (MAtom.co64 es :: as)).length + post.length) := by simp
          rw [searchAtoms_eq]
          rw [if_pos ⟨hend, by rw [hblen]; omega⟩]
          simp only [hread, htg, hcnt]
          rw [if_neg (by rw [hlen, hsl]; omega)]
          rw [if_neg (by decide)]
          rw [if_pos trivial]
          rw [if_neg (by rw [hblen, hlen, hsl]; omega)]
          have hloop : co64EntryLoop delta threshold es.length
              (pre ++ (encForest (MAtom.co64 es :: as) ++ post))
              (pre.length + 16) 0 =
              ((pre ++ (u32BE (16 + 8 * es.length) ++ (tagCo64 ++
                  (u32BE 0 ++ u32BE es.length)))) ++
                ((es.map (specShift delta threshold)).flatMap u64BE ++
                  (encForest as ++ post)),
               0 + (es.filter (fun o => threshold ≤ o)).length, true) := by
            rw [show pre ++ (encForest (MAtom.co64 es :: as) ++ post) =
              (pre ++ (u32BE (16 + 8 * es.length) ++ (tagCo64 ++
                  (u32BE 0 ++ u32BE es.length)))) ++
                (es.flatMap u64BE ++ (encForest as ++ post)) from by
              simp [encForest, encAtom, List.append_assoc]]
            rw [show pre.length + 16 =
              (pre ++ (u32BE (16 + 8 * es.length) ++ (tagCo64 ++
                  (u32BE 0 ++ u32BE es.length)))).length from by
              simp [u32BE_length, tagCo64]]
            exact co64EntryLoop_spec delta threshold es _ _ 0 hes53 hfa
          rw [hloop]
          dsimp only
          rw [if_pos rfl]
          have hmapenc : (pre ++ (u32BE (16 + 8 * es.length) ++ (tagCo64 ++
              (u32BE 0 ++ u32BE es.length)))) ++
                ((es.map (specShift delta threshold)).flatMap u64BE ++
                  (encForest as ++ post)) =
              (pre ++ encAtom (mapAtom delta threshold (MAtom.co64 es))) ++
                (encForest as ++ post) := by
            simp [mapAtom, encAtom, List.length_map, List.append_assoc]
          have hpos2 : pre.length + (16 + 8 * es.length) =
              (pre ++ encAtom (mapAtom delta threshold
                (MAtom.co64 es))).length := by
            rw [List.length_append, encAtom_map_length, hsl]
          have hend2 : pre.length + (encForest (MAtom.co64 es :: as)).length =
              (pre ++ encAtom (mapAtom delta threshold
                (MAtom.co64 es))).length + (encForest as).length := by
            rw [List.length_append, encAtom_map_length, hsl, hlen, hsl]
            omega
          rw [hmapenc, hpos2, hend2]
          have er_lt : (encForest as).length < k := by
            rw [hlen, hsl] at hk
            omega
          refine (IH (encForest as).length er_lt as
            (pre ++ encAtom (mapAtom delta threshold (MAtom.co64 es))) post
            delta threshold c₁ (c₂ + 1)
            (c₃ + (0 + (es.filter (fun o => threshold ≤ o)).length))
            (le_refl _) hwfas hfas).trans ?_
          simp only [mapForest, encForest, cntStcoF, cntStcoA, cntCo64F,
            cntCo64A, cntGEF, cntGEA, ScanSt.mk.injEq]
          refine ⟨by simp [List.append_assoc], by omega, by omega, ?_⟩
          simp [List.filter]
          omega
        | node t cs =>
          simp only [WfAtom] at hwfa
          obtain ⟨htag5, hsize, hwfcs⟩ := hwfa
          simp only [FitsAtom] at hfa
          have ht4 : t.length = 4 := container_tag_length t htag5
          have hsl : (encAtom (MAtom.node t cs)).length =
              8 + (encForest cs).length := by
            rw [encAtom_node_length]
            omega
          have hread : readU32
              (pre ++ (encForest (MAtom.node t cs :: as) ++ post))
              pre.length = 8 + (encForest cs).length := by
            rw [show pre ++ (encForest (MAtom.node t cs :: as) ++ post) =
              pre ++ (u32BE (8 + (encForest cs).length) ++ (t ++
                (encForest cs ++ (encForest as ++ post)))) from by
              simp [encForest, encAtom, List.append_assoc]]
            exact readU32_at _ _ _ _ hsize rfl
          have htg : tagAt
              (pre ++ (encForest (MAtom.node t cs :: as) ++ post))
              (pre.length + 4) = t := by
            rw [show pre ++ (encForest (MAtom.node t cs :: as) ++ post) =
              (pre ++ u32BE (8 + (encForest cs).length)) ++ (t ++
                (encForest cs ++ (encForest as ++ post))) from by
              simp [encForest, encAtom, List.append_assoc]]
            exact tagAt_len4 _ _ _ _ ht4 (by simp [u32BE_length])
          have hblen : (pre ++ (encForest (MAtom.node t cs :: as) ++
              post)).length = pre.length + ((encForest
              (MAtom.node t cs :: as)).length + post.length) := by simp
          rw [searchAtoms_eq]
          rw [if_pos ⟨hend, by rw [hblen]; omega⟩]
          simp only [hread, htg]
          rw [if_neg (by rw [hlen, hsl]; omega)]
          rw [if_neg (by rcases htag5 with h | h | h | h | h <;> rw [h] <;>
            decide)]
          rw [if_neg (by rcases htag5 with h | h | h | h | h <;> rw [h] <;>
            decide)]
          rw [if_pos htag5]
          have hinner := IH (encForest cs).length
            (by rw [hlen, hsl] at hk; omega) cs
            (pre ++ (u32BE (8 + (encForest cs).length) ++ t))
            (encForest as ++ post) delta threshold c₁ c₂ c₃ (le_refl _)
            hwfcs hfa
          have hinner2 : searchAtoms delta threshold
              ⟨pre ++ (encForest (MAtom.node t cs :: as) ++ post),
               c₁, c₂, c₃⟩ (pre.length + 8)
              (pre.length + (8 + (encForest cs).length)) =
              ⟨(pre ++ (u32BE (8 + (encForest cs).length) ++ t)) ++
                (encForest (mapForest delta threshold cs) ++
                  (encForest as ++ post)),
               c₁ + cntStcoF cs, c₂ + cntCo64F cs,
               c₃ + cntGEF threshold cs⟩ := by
            rw [show pre ++ (encForest (MAtom.node t cs :: as) ++ post) =
              (pre ++ (u32BE (8 + (encForest cs).length) ++ t)) ++
                (encForest cs ++ (encForest as ++ post)) from by
              simp [encForest, encAtom, List.append_assoc]]
            rw [show pre.length + 8 =
              (pre ++ (u32BE (8 + (encForest cs).length) ++ t)).length from by
              simp [u32BE_length, ht4]]
            rw [show pre.length + (8 + (encForest cs).length) =
              (pre ++ (u32BE (8 + (encForest cs).length) ++ t)).length +
                (encForest cs).length from by
              simp [u32BE_length, ht4]
              omega]
            exact hinner
          rw [hinner2]
          have hmapenc : (pre ++ (u32BE (8 + (encForest cs).length) ++ t)) ++
              (encForest (mapForest delta threshold cs) ++
                (encForest as ++ post)) =
              (pre ++ encAtom (mapAtom delta threshold (MAtom.node t cs))) ++
                (encForest as ++ post) := by
            simp [mapAtom, encAtom, encForest_map_length, List.append_assoc]
          have hpos2 : pre.length + (8 + (encForest cs).length) =
              (pre ++ encAtom (mapAtom delta threshold
                (MAtom.node t cs))).length := by
            rw [List.length_append, encAtom_map_length, hsl]
          have hend2 : pre.length +
              (encForest (MAtom.node t cs :: as)).length =
              (pre ++ encAtom (mapAtom delta threshold
                (MAtom.node t cs))).length + (encForest as).length := by
            rw [List.length_append, encAtom_map_length, hsl, hlen, hsl]
            omega
          rw [hmapenc, hpos2, hend2]
          have er_lt : (encForest as).length < k := by
            rw [hlen, hsl] at hk
            omega
          refine (IH (encForest as).length er_lt as
            (pre ++ encAtom (mapAtom delta threshold (MAtom.node t cs))) post
            delta threshold (c₁ + cntStcoF cs) (c₂ + cntCo64F cs)
            (c₃ + cntGEF threshold cs) (le_refl _) hwfas hfas).trans ?_
          simp only [mapForest, encForest, cntStcoF, cntStcoA, cntCo64F,
            cntCo64A, cntGEF, cntGEA, ScanSt.mk.injEq]
          refine ⟨by simp [List.append_assoc], by omega, by omega, by omega⟩
        | leaf t p =>
          simp only [WfAtom] at hwfa
          obtain ⟨ht4, hsize, hnot⟩ := hwfa
          have hsl : (encAtom (MAtom.leaf t p)).length = 8 + p.length := by
            rw [encAtom_leaf_length]
            omega
          have hread : readU32
              (pre ++ (encForest (MAtom.leaf t p :: as) ++ post))
              pre.length = 8 + p.length := by
            rw [show pre ++ (encForest (MAtom.leaf t p :: as) ++ post) =
              pre ++ (u32BE (8 + p.length) ++ (t ++
                (p ++ (encForest as ++ post)))) from by
              simp [encForest, encAtom, List.append_assoc]]
            exact readU32_at _ _ _ _ hsize rfl
          have htg : tagAt
              (pre ++ (encForest (MAtom.leaf t p :: as) ++ post))
              (pre.length + 4) = t := by
            rw [show pre ++ (encForest (MAtom.leaf t p :: as) ++ post) =
              (pre ++ u32BE (8 + p.length)) ++ (t ++
                (p ++ (encForest as ++ post))) from by
              simp [encForest, encAtom, List.append_assoc]]
            exact tagAt_len4 _ _ _ _ ht4 (by simp [u32BE_length])
          have hblen : (pre ++ (encForest (MAtom.leaf t p :: as) ++
              post)).length = pre.length + ((encForest
              (MAtom.leaf t p :: as)).length + post.length) := by simp
          rw [searchAtoms_eq]
          rw [if_pos ⟨hend, by rw [hblen]; omega⟩]
          simp only [hread, htg]
          rw [if_neg (by rw [hlen, hsl]; omega)]
          rw [if_neg (fun h => hnot (Or.inl h))]
          rw [if_neg (fun h => hnot (Or.inr (Or.inl h)))]
          rw [if_neg (fun h => hnot (Or.inr (Or.inr h)))]
          have hB : pre ++ (encForest (MAtom.leaf t p :: as) ++ post) =
              (pre ++ encAtom (MAtom.leaf t p)) ++
                (encForest as ++ post) := by
            simp [encForest, List.append_assoc]
          have hpos2 : pre.length + (8 + p.length) =
              (pre ++ encAtom (MAtom.leaf t p)).length := by
            rw [List.length_append, hsl]
          have hend2 : pre.length +
              (encForest (MAtom.leaf t p :: as)).length =
              (pre ++ encAtom (MAtom.leaf t p)).length +
                (encForest as).length := by
            rw [List.length_append, hsl, hlen, hsl]
            omega
          rw [hB, hpos2, hend2]
          have er_lt : (encForest as).length < k := by
            rw [hlen, hsl] at hk
            omega
          refine (IH (encForest as).length er_lt as
            (pre ++ encAtom (MAtom.leaf t p)) post
            delta threshold c₁ c₂ c₃ (le_refl _) hwfas hfas).trans ?_
          simp only [mapForest, encForest, cntStcoF, cntStcoA, cntCo64F,
            cntCo64A, cntGEF, cntGEA, mapAtom, ScanSt.mk.injEq]
          refine ⟨by simp [List.append_assoc], by omega, by omega, by omega⟩
      · -- fewer than 9 bytes in the range: the loop exits untouched;
        -- this can only happen for a single trailing 8-byte box
        have hle : (encForest (a :: as)).length ≤ 8 := by omega
        have heq8 : (encAtom a).length = 8 := by omega
        have hnil : as = [] :=
          encForest_length_zero as hwfas (by omega)
        subst hnil
        obtain ⟨hmap, hc1, hc2, hc3⟩ :=
          encAtom_length_eq8 delta threshold a hwfa heq8
        rw [searchAtoms_eq]
        rw [if_neg (by
          intro hcon
          exact absurd hcon.1 (by omega))]
        simp [mapForest, hmap, cntStcoF, cntCo64F, cntGEF, hc1, hc2, hc3]

/-- A one-table `moov` buffer used by the C1 counterexample: a `moov`
    container holding a single `stco` table whose only entry is 100. -/
def c1moov : List Nat := encForest [.node tagMoov [.stco [100]]]

/-- C1 is false as stated: with threshold 0 and delta −200 the single
    entry 100 is ≥ the threshold and the delta is non-zero, yet no entry
    is replaced (the new value −100 is outside `[0, 2^32 − 1]`, so
    `writeUInt32BE` throws and the `catch` abandons the table): the buffer
    comes back byte-identical and `totalUpdated = 0 ≠ 1`, the number of
    entries ≥ the threshold. -/
theorem C1_counterexample :
    readU32 c1moov 24 = 100 ∧ (0 : Nat) ≤ 100 ∧ (-200 : Int) ≠ 0 ∧
    (updateChunkOffsets c1moov (-200) 0).buf = c1moov ∧
    (updateChunkOffsets c1moov (-200) 0).totalUpdated = 0 ∧
    cntGEF 0 [.node tagMoov [.stco [100]]] = 1 := by
  decide

/-- C1 (amended): on a well-formed `moov` layout, and provided every
    shifted value fits its table's entry width, `updateChunkOffsets`
    replaces each `stco`/`co64` entry `o` by `o + Δ` exactly when
    `o ≥ T` (that is, it produces the encoding of the `specShift`-mapped
    layout), and the number of updated entries equals the number of
    entries `≥ T` in the input. -/
theorem C1_chunk_offset_rewrite (ts : List MAtom) (delta : Int)
    (threshold : Nat) (hwf : WfForest ts)
    (hfits : FitsForest delta threshold ts) :
    updateChunkOffsets (encForest ts) delta threshold =
      ⟨encForest (mapForest delta threshold ts), cntStcoF ts, cntCo64F ts,
       cntGEF threshold ts⟩ := by
  have h := searchAtoms_refines (encForest ts).length ts [] [] delta
    threshold 0 0 0 (le_refl _) hwf hfits
  simpa [updateChunkOffsets] using h

/-- The layout used by the C1 witness: `moov > trak > mdia > minf > stbl`
    holding one `stco` with entries 50 and 200 (threshold 100, delta 7). -/
def c1ts : List MAtom :=
  [.node tagMoov [.node tagTrak [.node tagMdia [.node tagMinf
    [.node tagStbl [.stco [50, 200]]]]]]]

theorem C1_chunk_offset_rewrite_witness :
    WfForest c1ts ∧ FitsForest 7 100 c1ts ∧
    updateChunkOffsets (encForest c1ts) 7 100 =
      ⟨encForest (mapForest 7 100 c1ts), 1, 0, 1⟩ := by
  have hwf : WfForest c1ts := by
    simp [c1ts, WfForest, WfAtom, tagMoov, tagTrak, tagMdia, tagMinf,
      tagStbl, tagStco, encForest, encAtom, u32BE]
  have hfits : FitsForest 7 100 c1ts := by
    simp [c1ts, FitsForest, FitsAtom]
  refine ⟨hwf, hfits, ?_⟩
  have h := C1_chunk_offset_rewrite c1ts 7 100 hwf hfits
  rw [h]
  decide

/-- A `moov` buffer whose single `stco` entry is 2^32 − 4: adding 16
    overflows the 32-bit entry. -/
def c2moov : List Nat := encForest [.node tagMoov [.stco [4294967292]]]

/-- C2 is false as stated: when a shifted `stco` entry would exceed
    2^32 − 1 the writer does not upgrade the table to `co64` — the
    output buffer is byte-identical to the input (the table keeps its
    `stco` tag and its old entry, no size is recomputed, nothing is fed
    back into the delta computation) and no entry is counted as updated. -/
theorem C2_counterexample :
    readU32 c2moov 24 = 4294967292 ∧
    (4294967292 + 16 : Nat) > 4294967295 ∧
    (updateChunkOffsets c2moov 16 0).buf = c2moov ∧
    tagAt (updateChunkOffsets c2moov 16 0).buf 12 = tagStco ∧
    (updateChunkOffsets c2moov 16 0).totalUpdated = 0 := by
  decide

/-- C2 (amended): the writer has no `stco`→`co64` upgrade path.  When the
    loop reaches an entry `o ≥ T` whose shifted value leaves
    `[0, 2^32 − 1]`, `writeUInt32BE` throws: the entries before it keep
    their rewritten values, `o` itself and every later entry keep their
    original bytes, the update count covers only the entries already
    rewritten, and the loop reports failure (after which the scan resumes
    8 bytes past the table start, as the `catch` block does). -/
theorem C2_no_co64_upgrade (delta : Int) (threshold : Nat) :
    ∀ (es₁ : List Nat) (o : Nat) (es₂ pre post : List Nat) (u₀ : Nat),
    (∀ x ∈ es₁, x < 4294967296) →
    (∀ x ∈ es₁, threshold ≤ x →
      0 ≤ (x : Int) + delta ∧ (x : Int) + delta ≤ 4294967295) →
    o < 4294967296 → threshold ≤ o →
    ((o : Int) + delta < 0 ∨ (o : Int) + delta > 4294967295) →
    stcoEntryLoop delta threshold (es₁ ++ o :: es₂).length
        (pre ++ ((es₁ ++ o :: es₂).flatMap u32BE ++ post)) pre.length u₀ =
      (pre ++ ((es₁.map (specShift delta threshold)).flatMap u32BE ++
        ((o :: es₂).flatMap u32BE ++ post)),
       u₀ + (es₁.filter (fun x => threshold ≤ x)).length, false) := by
  intro es₁
  induction es₁ with
  | nil =>
    intro o es₂ pre post u₀ _ _ ho hge hover
    simp only [List.nil_append, List.length_cons, stcoEntryLoop]
    have hbuf : pre ++ ((o :: es₂).flatMap u32BE ++ post) =
        pre ++ (u32BE o ++ (es₂.flatMap u32BE ++ post)) := by
      simp [List.flatMap_cons]
    rw [hbuf]
    have hlen4 : ¬ (pre.length + 4 >
        (pre ++ (u32BE o ++ (es₂.flatMap u32BE ++ post))).length) := by
      simp [u32BE_length]
    rw [if_neg hlen4]
    rw [readU32_at pre (es₂.flatMap u32BE ++ post) o pre.length ho rfl]
    rw [if_pos hge]
    rw [if_pos hover]
    rw [← hbuf]
    simp

  | cons x es₁ ih =>
    intro o es₂ pre post u₀ hrange hfits ho hge hover
    have hx : x < 4294967296 := hrange x (by simp)
    simp only [List.cons_append, List.length_cons, stcoEntryLoop,
      List.append_eq]
    have hbuf : pre ++ ((x :: (es₁ ++ o :: es₂)).flatMap u32BE ++ post) =
        pre ++ (u32BE x ++ ((es₁ ++ o :: es₂).flatMap u32BE ++ post)) := by
      simp [List.flatMap_cons]
    rw [hbuf]
    have hlen4 : ¬ (pre.length + 4 >
        (pre ++ (u32BE x ++
          ((es₁ ++ o :: es₂).flatMap u32BE ++ post))).length) := by
      simp [u32BE_length]
    rw [if_neg hlen4]
    rw [readU32_at pre ((es₁ ++ o :: es₂).flatMap u32BE ++ post) x
      pre.length hx rfl]
    by_cases hgx : x ≥ threshold
    · rw [if_pos hgx]
      obtain ⟨hlo, hhi⟩ := hfits x (by simp) hgx
      rw [if_neg (by omega)]
      rw [writeBytes_at pre (u32BE x)
        ((es₁ ++ o :: es₂).flatMap u32BE ++ post)
        (u32BE ((x + delta : Int).toNat)) pre.length rfl rfl]
      have hre : pre ++ (u32BE ((x + delta : Int).toNat) ++
          ((es₁ ++ o :: es₂).flatMap u32BE ++ post)) =
          (pre ++ u32BE ((x + delta : Int).toNat)) ++
            ((es₁ ++ o :: es₂).flatMap u32BE ++ post) := by
        simp [List.append_assoc]
      rw [hre]
      have hoff : pre.length + 4 =
          (pre ++ u32BE ((x + delta : Int).toNat)).length := by
        simp [u32BE_length]
      rw [hoff]
      rw [ih o es₂ (pre ++ u32BE ((x + delta : Int).toNat)) post (u₀ + 1)
        (fun y hy => hrange y (List.mem_cons_of_mem _ hy))
        (fun y hy h => hfits y (List.mem_cons_of_mem _ hy) h) ho hge hover]
      have hshift : specShift delta threshold x = (x + delta : Int).toNat := by
        unfold specShift
        rw [if_pos hgx]
      simp only [Prod.mk.injEq]
      refine ⟨?_, ?_, trivial⟩
      · simp [List.map_cons, List.flatMap_cons, hshift, List.append_assoc]
      · simp only [List.filter_cons, decide_eq_true_eq]
        rw [if_pos hgx]
        simp only [List.length_cons]
        omega
    · rw [if_neg hgx]
      have hre : pre ++ (u32BE x ++
          ((es₁ ++ o :: es₂).flatMap u32BE ++ post)) =
          (pre ++ u32BE x) ++
            ((es₁ ++ o :: es₂).flatMap u32BE ++ post) := by
        simp [List.append_assoc]
      rw [hre]
      have hoff : pre.length + 4 = (pre ++ u32BE x).length := by
        simp [u32BE_length]
      rw [hoff]
      rw [ih o es₂ (pre ++ u32BE x) post u₀
        (fun y hy => hrange y (List.mem_cons_of_mem _ hy))
        (fun y hy h => hfits y (List.mem_cons_of_mem _ hy) h) ho hge hover]
      have hshift : specShift delta threshold x = x := by
        unfold specShift
        rw [if_neg hgx]
      simp only [Prod.mk.injEq]
      refine ⟨?_, ?_, trivial⟩
      · simp [List.map_cons, List.flatMap_cons, hshift, List.append_assoc]
      · simp only [List.filter_cons, decide_eq_true_eq]
        rw [if_neg hgx]

theorem C2_no_co64_upgrade_witness :
    stcoEntryLoop 16 0 2 ([] ++ ([50, 4294967292].flatMap u32BE ++ []))
        0 0 =
      ([] ++ (([50].map (specShift 16 0)).flatMap u32BE ++
        ([4294967292].flatMap u32BE ++ [])), 0 + 1, false) := by
  have h := C2_no_co64_upgrade 16 0 [50] 4294967292 [] [] [] 0
    (by decide) (by decide) (by decide) (by decide) (by decide)
  simpa using h

/-- A minimal M4A file used by several witnesses: a `moov` atom whose only
    child is an empty `free` atom (24 bytes in total). -/
def exFile : List Nat := createAtom tagMoov (createAtom tagFree [])

/-- A small stand-in kaid JSON payload. -/
def exJson : List Nat := utf8Bytes "k"

/-- C3: whenever the atom list of the file contains a `moov` atom (the
    first one found being `m`), `injectKaidAtom` rebuilds the file as
    `file[0..m.offset) ++ moovPart ++ file[m.offset+m.size..)`, where the
    chunk-offset rewriter is invoked on the freshly built `moov` exactly
    when `Δ = sizeof(new moov) − sizeof(old moov) ≠ 0` (`Δ` is signed),
    with threshold `T = m.offset + m.size`, the absolute file offset of
    the end of the old `moov`; when `Δ = 0` the new `moov` is spliced in
    untouched. -/
theorem C3_delta_threshold_invocation (fileBuffer kaidJson : List Nat)
    (m : AtomRec)
    (hm : (parseMP4Atoms fileBuffer 0 none).find?
      (fun a => a.type = tagMoov) = some m) :
    injectKaidAtomCore fileBuffer kaidJson =
      Except.ok (jsSlice fileBuffer 0 m.offset ++
        (if ((buildNewMoov fileBuffer kaidJson m).length : Int) -
            (m.size : Int) ≠ 0 then
          (updateChunkOffsets (buildNewMoov fileBuffer kaidJson m)
            (((buildNewMoov fileBuffer kaidJson m).length : Int) -
              (m.size : Int))
            (m.offset + m.size)).buf
        else buildNewMoov fileBuffer kaidJson m) ++
        fileBuffer.drop (m.offset + m.size)) := by
  simp only [injectKaidAtomCore, hm]

theorem C3_delta_threshold_invocation_witness :
    (parseMP4Atoms exFile 0 none).find? (fun a => a.type = tagMoov) =
      some ⟨tagMoov, 0, 16, 8⟩ ∧
    injectKaidAtomCore exFile exJson =
      Except.ok (jsSlice exFile 0 0 ++
        (if ((buildNewMoov exFile exJson ⟨tagMoov, 0, 16, 8⟩).length : Int) -
            (16 : Int) ≠ 0 then
          (updateChunkOffsets (buildNewMoov exFile exJson ⟨tagMoov, 0, 16, 8⟩)
            (((buildNewMoov exFile exJson ⟨tagMoov, 0, 16, 8⟩).length : Int) -
              (16 : Int)) (0 + 16)).buf
        else buildNewMoov exFile exJson ⟨tagMoov, 0, 16, 8⟩) ++
        exFile.drop (0 + 16)) :=
  ⟨by decide,
   C3_delta_threshold_invocation exFile exJson ⟨tagMoov, 0, 16, 8⟩
     (by decide)⟩

/-- An existing freeform `----` item with identity
    `(com.stems, vpch)` — not the kaid item. -/
def vpchItem : List Nat :=
  createAtom tagDash
    (createAtom tagMean (u32BE 0 ++ utf8Bytes "com.stems") ++
     (createAtom tagName (u32BE 0 ++ utf8Bytes "vpch") ++
      createAtom tagData (u32BE 1 ++ (u32BE 0 ++ utf8Bytes "p"))))

/-- A `meta` atom whose `ilst` holds exactly one freeform item: the
    `vpch` item. -/
def c4meta : List Nat :=
  createAtom tagMeta (u32BE 0 ++ createAtom tagIlst vpchItem)

/-- The kaid freeform atom being injected in the C4 scenario. -/
def c4kaid : List Nat := createKaidAtom (utf8Bytes "j")

set_option maxRecDepth 4000 in
/-- C4: `updateMetaWithKaid` locates the existing item with
    `ilstChildren.find((a) => a.type === '----')` — the *first* freeform
    atom regardless of its `(mean, name)` identity — and replaces it.  On
    a file whose `ilst` holds a `com.stems:vpch` item, the rebuilt `meta`
    payload is the version word followed by an `ilst` containing only the
    new kaid item: the `vpch` item's bytes are gone, although its
    identity differs from `(com.stems, kaid)`. -/
theorem C4_first_freeform_clobbered :
    vpchItem <:+: c4meta ∧
    updateMetaWithKaid c4meta ⟨tagMeta, 0, c4meta.length, 8⟩ c4kaid =
      u32BE 0 ++ createAtom tagIlst c4kaid ∧
    ¬ vpchItem <:+: (u32BE 0 ++ createAtom tagIlst c4kaid) := by
  decide

/-- `op` is a rename. -/
def isRename : FsOp → Bool
  | FsOp.rename _ _ => true
  | _ => false

/-- `op` is an fsync. -/
def isFsync : FsOp → Bool
  | FsOp.fsync _ => true
  | _ => false

/-- `op` writes to a `.tmp` path. -/
def writesTmpPath : FsOp → Bool
  | FsOp.writeFile p _ => (".tmp").data.isSuffixOf p.data
  | _ => false

/-- `op` writes directly to `path`. -/
def isWriteTo (path : String) : FsOp → Bool
  | FsOp.writeFile p _ => p == path
  | _ => false

set_option maxRecDepth 4000 in
/-- C5 is false as stated: a concrete save's file-system trace contains no
    write to a `.tmp` path, no fsync, and no rename — it writes the new
    bytes directly to the target path, so the tmp-write/fsync/rename
    publish protocol the claim describes is absent. -/
theorem C5_counterexample :
    ((injectKaidAtomOps ("song.m4a") ("song.m4a") exFile exJson).any
      isRename) = false ∧
    ((injectKaidAtomOps ("song.m4a") ("song.m4a") exFile exJson).any
      isFsync) = false ∧
    ((injectKaidAtomOps ("song.m4a") ("song.m4a") exFile exJson).any
      writesTmpPath) = false ∧
    ((injectKaidAtomOps ("song.m4a") ("song.m4a") exFile exJson).any
      (isWriteTo ("song.m4a"))) = true := by
  decide

/-- C5 (amended): every file-system operation of `injectKaidAtom` is
    either the initial read of the input path or the single direct
    `writeFile` of the rebuilt bytes to the output path; no temporary
    file, fsync, or rename is ever used, and a run that fails performs no
    write at all. -/
theorem C5_direct_write (inputPath outputPath : String)
    (fileContents kaidJson : List Nat) :
    ∀ x ∈ injectKaidAtomOps inputPath outputPath fileContents kaidJson,
      x = FsOp.readFile inputPath ∨
      ∃ b, injectKaidAtomCore fileContents kaidJson = Except.ok b ∧
        x = FsOp.writeFile outputPath b := by
  intro x hx
  unfold injectKaidAtomOps at hx
  cases h : injectKaidAtomCore fileContents kaidJson with
  | ok b =>
    rw [h] at hx
    simp only [List.mem_cons, List.not_mem_nil, or_false] at hx
    rcases hx with hx | hx
    · exact Or.inl hx
    · exact Or.inr ⟨b, rfl, hx⟩
  | error e =>
    rw [h] at hx
    simp only [List.mem_singleton] at hx
    exact Or.inl hx

theorem C5_direct_write_witness :
    FsOp.readFile ("in.m4a") = FsOp.readFile ("in.m4a") ∨
    ∃ b, injectKaidAtomCore exFile exJson = Except.ok b ∧
      FsOp.readFile ("in.m4a") = FsOp.writeFile ("out.m4a") b :=
  C5_direct_write ("in.m4a") ("out.m4a") exFile exJson
    (FsOp.readFile ("in.m4a"))
    (by unfold injectKaidAtomOps; exact List.mem_cons_self _ _)

/-- A buffer whose first atom is valid (a 16-byte `free`) and whose second
    declares size 100 with only 12 bytes remaining. -/
def c6buf : List Nat :=
  createAtom tagFree (List.replicate 8 0) ++ (u32BE 100 ++ (tagFree ++ [0, 0, 0, 0]))

/-- C6 is false as stated: on a buffer whose second box declares a size
    exceeding the remaining range, `parseMP4Atoms` raises no
    `MalformedBox` (it has no error path at all): it silently returns the
    partial result — just the first atom. -/
theorem C6_counterexample :
    readU32 c6buf 16 = 100 ∧ 16 + 100 > c6buf.length ∧
    parseMP4Atoms c6buf 0 none = [⟨tagFree, 0, 16, 8⟩] := by
  decide

/-- C6 (amended): the parser never signals an error.  Whenever fewer than
    9 bytes remain before the end bound, or the declared size at the
    current position is zero or overruns the buffer, the parse loop simply
    stops, returning the atoms accumulated so far (the empty list from the
    current position on). -/
theorem C6_parser_never_errors (b : List Nat) (endO : Int) (pos : Nat)
    (h : ¬ ((pos : Int) + 8 < endO) ∨ readU32 b pos = 0 ∨
      pos + readU32 b pos > b.length) :
    parseAtomsFrom b endO pos = [] := by
  rw [parseAtomsFrom_eq]
  by_cases hc : (pos : Int) + 8 < endO
  · rw [if_pos hc]
    rcases h with h | h
    · exact absurd hc h
    · simp only []
      rw [if_pos h]
  · rw [if_neg hc]

theorem C6_parser_never_errors_witness :
    parseAtomsFrom c6buf 28 16 = [] :=
  C6_parser_never_errors c6buf 28 16 (by decide)

/-- The song used to evaluate `prepareKaidData`: one lyric line from 1 s
    to 2 s with text `hi`. -/
def c7song : SongData :=
  ⟨none, none, some [⟨some 1, none, some 2, none, some "hi", false⟩],
   none, none⟩

/-- C7: evaluating `prepareKaidData` shows the canonical key set the
    claim (and the repository's own docs) require is absent: there is no
    top-level `stems_karaoke_version` key, and a line carries only
    `start`, `end`, `text` (plus a conditional `disabled`) — no
    `singer_id` and no `word_timing`. -/
theorem C7_kaid_key_set :
    kaidTopKeys (prepareKaidData c7song) = ["audio", "timing", "lines"] ∧
    "stems_karaoke_version" ∉ kaidTopKeys (prepareKaidData c7song) ∧
    (prepareKaidData c7song).lines = [⟨1, 2, "hi", false⟩] ∧
    kaidLineKeys ⟨1, 2, "hi", false⟩ = ["start", "end", "text"] ∧
    "singer_id" ∉ kaidLineKeys ⟨1, 2, "hi", false⟩ ∧
    "word_timing" ∉ kaidLineKeys ⟨1, 2, "hi", false⟩ := by
  decide

/-- Two lines of the same (only) singer whose ranges [1, 10] and [5, 12]
    overlap by 5 seconds. -/
def c8song : SongData :=
  ⟨none, none,
   some [⟨some 1, none, some 10, none, some "a", false⟩,
         ⟨some 5, none, some 12, none, some "b", false⟩],
   none, some ["A"]⟩

set_option maxRecDepth 100000 in
/-- C8 is false as stated: a save of a song whose two same-singer lines
    overlap does not fail with `OverlappingLines` — no validation exists.
    The save reports success, carries no error, and writes new bytes over
    the target file (so the file is changed by the attempt). -/
theorem C8_counterexample :
    (prepareKaidData c8song).lines =
      [⟨1, 10, "a", false⟩, ⟨5, 12, "b", false⟩] ∧
    (5 : ℚ) < 10 ∧ (1 : ℚ) < 12 ∧
    (save c8song exFile).success = true ∧
    (save c8song exFile).error = none ∧
    (save c8song exFile).written ≠ some exFile := by
  decide

/-- C8 (amended): `save` performs no validation of the song at all — its
    outcome depends only on whether the kaid injection into the file
    succeeds (that is, whether a `moov` atom is found), never on the
    lyric lines' timing. -/
theorem C8_no_validation (songData : SongData) (fileContents : List Nat) :
    (save songData fileContents).success = true ↔
      ∃ b, injectKaidAtomCore fileContents
        (utf8Bytes (renderKaid (prepareKaidData songData))) =
          Except.ok b := by
  unfold save
  cases h : injectKaidAtomCore fileContents
      (utf8Bytes (renderKaid (prepareKaidData songData))) with
  | ok b => simp [h]
  | error e => simp [h]

theorem nsComStems_length : nsComStems.length = 9 := rfl

theorem nameKaid_length : nameKaid.length = 4 := rfl

theorem tagMean_length : tagMean.length = 4 := rfl

theorem tagName_length : tagName.length = 4 := rfl

theorem tagData_length : tagData.length = 4 := rfl

set_option maxHeartbeats 1000000 in
/-- C9: for every string value, `createKaidAtom` of its UTF-8 bytes is a
    `----` box whose payload is exactly three children in order — `mean`
    (4 zero flag bytes then the ASCII namespace `com.stems`), `name`
    (4 zero flag bytes then the ASCII name `kaid`), `data` (4-byte type
    code 1, 4-byte locale 0, then the raw value) — with every size field
    as shown; parsing the payload region recovers exactly those three
    children.  The value is `utf8Bytes s`, hence valid UTF-8 by
    construction, and the type code is 1. -/
theorem C9_kaid_freeform_layout (s : String)
    (hsz : (utf8Bytes s).length + 61 < 4294967296) :
    createKaidAtom (utf8Bytes s) =
      u32BE (61 + (utf8Bytes s).length) ++ (tagDash ++
        ((u32BE 21 ++ (tagMean ++ (u32BE 0 ++ nsComStems))) ++
         ((u32BE 16 ++ (tagName ++ (u32BE 0 ++ nameKaid))) ++
          (u32BE (16 + (utf8Bytes s).length) ++
            (tagData ++ (u32BE 1 ++ (u32BE 0 ++ utf8Bytes s))))))) ∧
    parseMP4Atoms (createKaidAtom (utf8Bytes s)) 8
        (some (((createKaidAtom (utf8Bytes s)).length : Int) - 8)) =
      [⟨tagMean, 8, 21, 16⟩, ⟨tagName, 29, 16, 37⟩,
       ⟨tagData, 45, 16 + (utf8Bytes s).length, 53⟩] := by
  have hmean : createAtom tagMean (u32BE 0 ++ nsComStems) =
      u32BE 21 ++ (tagMean ++ (u32BE 0 ++ nsComStems)) := by decide
  have hname : createAtom tagName (u32BE 0 ++ nameKaid) =
      u32BE 16 ++ (tagName ++ (u32BE 0 ++ nameKaid)) := by decide
  have hdata : createAtom tagData (u32BE 1 ++ u32BE 0 ++ utf8Bytes s) =
      u32BE (16 + (utf8Bytes s).length) ++
        (tagData ++ (u32BE 1 ++ (u32BE 0 ++ utf8Bytes s))) := by
    unfold createAtom
    rw [show (u32BE 1 ++ u32BE 0 ++ utf8Bytes s).length =
      8 + (utf8Bytes s).length from by simp [u32BE_length]; omega]
    rw [show (8 : Nat) + (8 + (utf8Bytes s).length) =
      16 + (utf8Bytes s).length from by omega]
    simp [List.append_assoc]
  have hk : createKaidAtom (utf8Bytes s) =
      u32BE (61 + (utf8Bytes s).length) ++ (tagDash ++
        ((u32BE 21 ++ (tagMean ++ (u32BE 0 ++ nsComStems))) ++
         ((u32BE 16 ++ (tagName ++ (u32BE 0 ++ nameKaid))) ++
          (u32BE (16 + (utf8Bytes s).length) ++
            (tagData ++ (u32BE 1 ++ (u32BE 0 ++ utf8Bytes s))))))) := by
    unfold createKaidAtom
    rw [hmean, hname, hdata]
    simp only [createAtom]
    rw [show (u32BE 21 ++ (tagMean ++ (u32BE 0 ++ nsComStems)) ++
        (u32BE 16 ++ (tagName ++ (u32BE 0 ++ nameKaid))) ++
        (u32BE (16 + (utf8Bytes s).length) ++
          (tagData ++ (u32BE 1 ++ (u32BE 0 ++ utf8Bytes s))))).length =
      53 + (utf8Bytes s).length from by
        simp [u32BE_length, tagMean_length, tagName_length, tagData_length,
          nsComStems_length, nameKaid_length]
        omega]
    rw [show (8 : Nat) + (53 + (utf8Bytes s).length) =
      61 + (utf8Bytes s).length from by omega]
    simp [List.append_assoc]
  refine ⟨hk, ?_⟩
  have hklen : (createKaidAtom (utf8Bytes s)).length =
      61 + (utf8Bytes s).length := by
    rw [hk]
    simp [u32BE_length, tagMean_length, tagName_length, tagData_length,
      nsComStems_length, nameKaid_length, tagDash]
    omega
  have hs1 : createKaidAtom (utf8Bytes s) =
      (u32BE (61 + (utf8Bytes s).length) ++ tagDash) ++
      (u32BE 21 ++ (tagMean ++ (u32BE 0 ++ (nsComStems ++ (u32BE 16 ++ (tagName ++ (u32BE 0 ++ (nameKaid ++ (u32BE (16 + (utf8Bytes s).length) ++ (tagData ++ (u32BE 1 ++ (u32BE 0 ++ utf8Bytes s)))))))))))) := by
    rw [hk]
    simp [List.append_assoc]
  have hr1 : readU32 (createKaidAtom (utf8Bytes s)) 8 = 21 := by
    rw [hs1]
    exact readU32_at _ _ _ _ (by omega) (by simp [u32BE_length, tagDash, tagMean, tagName, tagData, nsComStems_length, nameKaid_length])
  have hs2 : createKaidAtom (utf8Bytes s) =
      ((u32BE (61 + (utf8Bytes s).length) ++ tagDash) ++ u32BE 21) ++
      (tagMean ++ (u32BE 0 ++ (nsComStems ++ (u32BE 16 ++ (tagName ++ (u32BE 0 ++ (nameKaid ++ (u32BE (16 + (utf8Bytes s).length) ++ (tagData ++ (u32BE 1 ++ (u32BE 0 ++ utf8Bytes s))))))))))) := by
    rw [hk]
    simp [List.append_assoc]
  have ht1 : tagAt (createKaidAtom (utf8Bytes s)) (8 + 4) = tagMean := by
    rw [hs2]
    exact tagAt_len4 _ _ _ _ rfl (by simp [u32BE_length, tagDash, tagMean, tagName, tagData, nsComStems_length, nameKaid_length])
  have hs3 : createKaidAtom (utf8Bytes s) =
      (((((u32BE (61 + (utf8Bytes s).length) ++ tagDash) ++ u32BE 21) ++ tagMean) ++ u32BE 0) ++ nsComStems) ++
      (u32BE 16 ++ (tagName ++ (u32BE 0 ++ (nameKaid ++ (u32BE (16 + (utf8Bytes s).length) ++ (tagData ++ (u32BE 1 ++ (u32BE 0 ++ utf8Bytes s)))))))) := by
    rw [hk]
    simp [List.append_assoc]
  have hr2 : readU32 (createKaidAtom (utf8Bytes s)) 29 = 16 := by
    rw [hs3]
    exact readU32_at _ _ _ _ (by omega) (by simp [u32BE_length, tagDash, tagMean, tagName, tagData, nsComStems_length, nameKaid_length])
  have hs4 : createKaidAtom (utf8Bytes s) =
      ((((((u32BE (61 + (utf8Bytes s).length) ++ tagDash) ++ u32BE 21) ++ tagMean) ++ u32BE 0) ++ nsComStems) ++ u32BE 16) ++
      (tagName ++ (u32BE 0 ++ (nameKaid ++ (u32BE (16 + (utf8Bytes s).length) ++ (tagData ++ (u32BE 1 ++ (u32BE 0 ++ utf8Bytes s))))))) := by
    rw [hk]
    simp [List.append_assoc]
  have ht2 : tagAt (createKaidAtom (utf8Bytes s)) (29 + 4) = tagName := by
    rw [hs4]
    exact tagAt_len4 _ _ _ _ rfl (by simp [u32BE_length, tagDash, tagMean, tagName, tagData, nsComStems_length, nameKaid_length])
  have hs5 : createKaidAtom (utf8Bytes s) =
      (((((((((u32BE (61 + (utf8Bytes s).length) ++ tagDash) ++ u32BE 21) ++ tagMean) ++ u32BE 0) ++ nsComStems) ++ u32BE 16) ++ tagName) ++ u32BE 0) ++ nameKaid) ++
      (u32BE (16 + (utf8Bytes s).length) ++ (tagData ++ (u32BE 1 ++ (u32BE 0 ++ utf8Bytes s)))) := by
    rw [hk]
    simp [List.append_assoc]
  have hr3 : readU32 (createKaidAtom (utf8Bytes s)) 45 = 16 + (utf8Bytes s).length := by
    rw [hs5]
    exact readU32_at _ _ _ _ (by omega) (by simp [u32BE_length, tagDash, tagMean, tagName, tagData, nsComStems_length, nameKaid_length])
  have hs6 : createKaidAtom (utf8Bytes s) =
      ((((((((((u32BE (61 + (utf8Bytes s).length) ++ tagDash) ++ u32BE 21) ++ tagMean) ++ u32BE 0) ++ nsComStems) ++ u32BE 16) ++ tagName) ++ u32BE 0) ++ nameKaid) ++ u32BE (16 + (utf8Bytes s).length)) ++
      (tagData ++ (u32BE 1 ++ (u32BE 0 ++ utf8Bytes s))) := by
    rw [hk]
    simp [List.append_assoc]
  have ht3 : tagAt (createKaidAtom (utf8Bytes s)) (45 + 4) = tagData := by
    rw [hs6]
    exact tagAt_len4 _ _ _ _ rfl (by simp [u32BE_length, tagDash, tagMean, tagName, tagData, nsComStems_length, nameKaid_length])
  unfold parseMP4Atoms
  rw [show endOffsetOf (createKaidAtom (utf8Bytes s)) 8
      (some (((createKaidAtom (utf8Bytes s)).length : Int) - 8)) =
      ((61 + (utf8Bytes s).length : Nat) : Int) from by
    simp only [endOffsetOf]
    rw [hklen]
    rw [if_neg (by push_cast; omega)]
    push_cast
    omega]
  rw [parseAtomsFrom_eq]
  rw [if_pos (by push_cast; omega)]
  simp only [hr1, ht1]
  rw [if_neg (by rw [hklen]; omega)]
  rw [show (8 : Nat) + 21 = 29 from rfl]
  refine List.cons_eq_cons.mpr ⟨by norm_num, ?_⟩
  rw [parseAtomsFrom_eq]
  rw [if_pos (by push_cast; omega)]
  simp only [hr2, ht2]
  rw [if_neg (by rw [hklen]; omega)]
  rw [show (29 : Nat) + 16 = 45 from rfl]
  refine List.cons_eq_cons.mpr ⟨by norm_num, ?_⟩
  rw [parseAtomsFrom_eq]
  rw [if_pos (by push_cast; omega)]
  simp only [hr3, ht3]
  rw [if_neg (by rw [hklen]; omega)]
  rw [show (45 : Nat) + (16 + (utf8Bytes s).length) =
    61 + (utf8Bytes s).length from by omega]
  refine List.cons_eq_cons.mpr ⟨by norm_num, ?_⟩
  rw [parseAtomsFrom_eq]
  rw [if_neg (by push_cast; omega)]


theorem C9_kaid_freeform_layout_witness :
    (utf8Bytes "k").length + 61 < 4294967296 ∧
    (createKaidAtom (utf8Bytes "k") =
      u32BE (61 + (utf8Bytes "k").length) ++ (tagDash ++
        ((u32BE 21 ++ (tagMean ++ (u32BE 0 ++ nsComStems))) ++
         ((u32BE 16 ++ (tagName ++ (u32BE 0 ++ nameKaid))) ++
          (u32BE (16 + (utf8Bytes "k").length) ++
            (tagData ++ (u32BE 1 ++ (u32BE 0 ++ utf8Bytes "k"))))))) ∧
    parseMP4Atoms (createKaidAtom (utf8Bytes "k")) 8
        (some (((createKaidAtom (utf8Bytes "k")).length : Int) - 8)) =
      [⟨tagMean, 8, 21, 16⟩, ⟨tagName, 29, 16, 37⟩,
       ⟨tagData, 45, 16 + (utf8Bytes "k").length, 53⟩]) :=
  ⟨by decide, C9_kaid_freeform_layout "k" (by decide)⟩

/-- C10: both atom-walking loops terminate on every input.
    `parseMP4Atoms`'s loop advances by the declared size (≥ 1 whenever an
    atom is accepted) and otherwise exits, so `endOffset − pos` steps of
    fuel always suffice and the fuel-indexed loop is independent of any
    further fuel; `updateChunkOffsets`'s `searchAtoms` advances by at
    least 8 bytes per step and recurses only into the strictly shorter
    range `(pos + 8, pos + size)`, so `end − pos` steps of fuel always
    suffice.  Hence each loop computes the same total result for every
    sufficient fuel: neither can run forever on any input, corrupt ones
    included. -/
theorem C10_scan_loops_terminate :
    (∀ (f : Nat) (b : List Nat) (endO : Int) (pos : Nat),
      (endO - (pos : Int)).toNat ≤ f →
      parseLoopF f b endO pos = parseAtomsFrom b endO pos) ∧
    (∀ (delta : Int) (threshold : Nat) (f : Nat) (st : ScanSt)
      (pos endP : Nat), endP - pos ≤ f →
      searchF delta threshold f st pos endP =
        searchAtoms delta threshold st pos endP) := by
  constructor
  · intro f b endO pos h
    exact parseLoopF_congr f _ b endO pos h (le_refl _)
  · intro delta threshold f st pos endP h
    exact searchF_congr delta threshold f _ st pos endP h (le_refl _)

theorem C10_scan_loops_terminate_witness :
    parseLoopF 40 exFile 16 0 = parseAtomsFrom exFile 16 0 ∧
    searchF 7 0 40 ⟨exFile, 0, 0, 0⟩ 0 16 = searchAtoms 7 0 ⟨exFile, 0, 0, 0⟩ 0 16 :=
  ⟨C10_scan_loops_terminate.1 40 exFile 16 0 (by decide),
   C10_scan_loops_terminate.2 7 0 40 ⟨exFile, 0, 0, 0⟩ 0 16 (by decide)⟩

end M4A

